import Mathlib

/-!
The argo-scheduler repository: the controller loop and the workflow submission helpers

A shallow embedding of `controller.go`, `workflow/splityaml.go` and
`workflow/submit.go`.

The controller is written in Go against three interfaces: the rate limited work
queue, the shared index informer and the handler.  The embedding keeps them as
records of functions over an arbitrary world state `σ`, so every statement about
`processNextItem`, `runWorker` and `Run` holds for every implementation of the
interfaces.  Each call the controller makes to a collaborator is appended to a
trace of `Event`s; logging calls (`c.logger.Infof`, `log.Info`, `fmt.Printf`)
have no effect on control flow and are left out.
-/

namespace ArgoScheduler

/-! ## Data model -/

/-- A queue item.  The queue stores `interface{}` values; the controller asserts
them to `string` (`key.(string)`), so a value is either a string or something
else (a `nil` interface included), told apart by a tag. -/
inductive QKey where
  | str (s : String)
  | other (tag : Nat)
  deriving DecidableEq

/-- The cached object behind an `interface{}` item, kept as an opaque handle. -/
abbrev Obj := Nat

/-- The three results of `Indexer.GetByKey`: `item`, `exists` and `err`
(`none` is Go's `nil`). -/
structure Lookup where
  item : Option Obj
  exists_ : Bool
  err : Option String
  deriving DecidableEq

/-- One call made by the controller to a collaborator. -/
inductive Event where
  | get (key : QKey) (quit : Bool)
  | done (key : QKey)
  | numRequeues (key : QKey)
  | addRateLimited (key : QKey)
  | forget (key : QKey)
  | shutDown
  | getByKey (keyRaw : String)
  | objectCreated (item : Option Obj)
  | objectDeleted (item : Option Obj)
  | handleError (msg : String)
  | handleCrash
  | cronStart
  | informerRun
  | waitForCacheSync (synced : Bool)
  | runWorker
  deriving DecidableEq

/-- Calls on the work queue. -/
def Event.isQueueOp : Event → Bool
  | .get _ _ | .done _ | .numRequeues _ | .addRateLimited _ | .forget _ | .shutDown => true
  | _ => false

/-- Calls on the handler. -/
def Event.isHandlerCall : Event → Bool
  | .objectCreated _ | .objectDeleted _ => true
  | _ => false

/-- How a Go call ends: it returns a value, it panics, it blocks for ever inside
`queue.Get`, or the model ran out of fuel before it ended. -/
inductive Outcome (α : Type) where
  | returned (a : α)
  | panicked (msg : String)
  | blocked
  | outOfFuel
  deriving DecidableEq

/-- The result of running a piece of the controller: how it ended, the world it
left and the calls it made, in order. -/
structure Exec (σ α : Type) where
  outcome : Outcome α
  world : σ
  trace : List Event

/-- The methods of `workqueue.RateLimitingInterface` the controller calls.
`Get` blocks until an item or the shutdown signal is there; `none` stands for a
`Get` that never delivers. -/
structure RateLimitingInterface (σ : Type) where
  Get : σ → Option ((QKey × Bool) × σ)
  Done : QKey → σ → σ
  Forget : QKey → σ → σ
  AddRateLimited : QKey → σ → σ
  NumRequeues : QKey → σ → Nat
  ShutDown : σ → σ

/-- The methods of `cache.SharedIndexInformer` the controller calls:
`GetIndexer().GetByKey` and `HasSynced`. -/
structure SharedIndexInformer (σ : Type) where
  GetByKey : String → σ → Lookup
  HasSynced : σ → Bool

/-- The handler capability.  A call may change the world (the queue included)
and either returns (`none`) or panics with a message. -/
structure Handler (σ : Type) where
  ObjectCreated : Option Obj → σ → Option String × σ
  ObjectDeleted : Option Obj → σ → Option String × σ

/-- The fields of `Controller` that take part in control flow. -/
structure Controller (σ : Type) where
  queue : RateLimitingInterface σ
  informer : SharedIndexInformer σ
  handler : Handler σ

variable {σ : Type}

/-! ## The reconciliation worker -/

/-- The `if err != nil` block of `processNextItem` (lines 204-213).  It ends
without a `return`, so control continues with the existence test. -/
def lookupErrorBlock (c : Controller σ) (key : QKey) (err : Option String) (w : σ) :
    σ × List Event :=
  match err with
  | none => (w, [])
  | some e =>
    if c.queue.NumRequeues key w < 5 then
      (c.queue.AddRateLimited key w, [.numRequeues key, .addRateLimited key])
    else
      (c.queue.Forget key w, [.numRequeues key, .forget key, .handleError e])

/-- The `if !exists ... else ...` block of `processNextItem` (lines 221-229)
followed by `return true`. -/
def dispatchBlock (c : Controller σ) (key : QKey) (r : Lookup) (w : σ) : Exec σ Bool :=
  if !r.exists_ then
    match c.handler.ObjectDeleted r.item w with
    | (some msg, w') => ⟨.panicked msg, w', [.objectDeleted r.item]⟩
    | (none, w') =>
      ⟨.returned true, c.queue.Forget key w', [.objectDeleted r.item, .forget key]⟩
  else
    match c.handler.ObjectCreated r.item w with
    | (some msg, w') => ⟨.panicked msg, w', [.objectCreated r.item]⟩
    | (none, w') =>
      ⟨.returned true, c.queue.Forget key w', [.objectCreated r.item, .forget key]⟩

/-- The body of `processNextItem` after `defer c.queue.Done(key)`. -/
def processBody (c : Controller σ) (key : QKey) (w : σ) : Exec σ Bool :=
  match key with
  | .other _ => ⟨.panicked "interface conversion: the key is not a string", w, []⟩
  | .str keyRaw =>
    let r := c.informer.GetByKey keyRaw w
    let eb := lookupErrorBlock c key r.err w
    let d := dispatchBlock c key r eb.1
    ⟨d.outcome, d.world, .getByKey keyRaw :: (eb.2 ++ d.trace)⟩

/-- The method `Controller.processNextItem`. -/
def processNextItem (c : Controller σ) (w : σ) : Exec σ Bool :=
  match c.queue.Get w with
  | none => ⟨.blocked, w, []⟩
  | some ((key, quit), w1) =>
    if quit then
      ⟨.returned false, w1, [.get key quit]⟩
    else
      let b := processBody c key w1
      ⟨b.outcome, c.queue.Done key b.world, .get key quit :: (b.trace ++ [.done key])⟩

/-- The method `Controller.runWorker`: `for c.processNextItem() {}`.  The loop
has no bound of its own, so the model takes fuel, one unit per call of
`processNextItem`. -/
def runWorker (c : Controller σ) : Nat → σ → Exec σ Unit
  | 0, w => ⟨.outOfFuel, w, []⟩
  | n + 1, w =>
    let s := processNextItem c w
    match s.outcome with
    | .returned true =>
      let r := runWorker c n s.world
      ⟨r.outcome, r.world, s.trace ++ r.trace⟩
    | .returned false => ⟨.returned (), s.world, s.trace⟩
    | .panicked msg => ⟨.panicked msg, s.world, s.trace⟩
    | .blocked => ⟨.blocked, s.world, s.trace⟩
    | .outOfFuel => ⟨.outOfFuel, s.world, s.trace⟩

/-! ## Lifecycle -/

/-- The method `Controller.HasSynced`. -/
def HasSynced (c : Controller σ) (w : σ) : Bool :=
  c.informer.HasSynced w

/-- What `Run` uses besides the controller's fields: `cache.WaitForCacheSync`
(given the sync predicate, its answer and the world once it has answered), the
state of the stop channel as `wait.Until` observes it, what the rest of the
system does to the world while `wait.Until` sleeps for its period, and
`utilruntime.ReallyCrash` (whether `HandleCrash` panics again after reporting). -/
structure Runtime (σ : Type) where
  WaitForCacheSync : (σ → Bool) → σ → Bool × σ
  stopped : σ → Bool
  sleep : σ → σ
  reallyCrash : Bool

/-- The library call `wait.Until(f, period, stopCh)`: until the stop channel is
closed, call `f` under its own `HandleCrash` and sleep for the period. -/
def waitUntil (rt : Runtime σ) (f : σ → Exec σ Unit) : Nat → σ → Exec σ Unit
  | 0, w => ⟨.outOfFuel, w, []⟩
  | n + 1, w =>
    if rt.stopped w then ⟨.returned (), w, []⟩
    else
      let s := f w
      match s.outcome with
      | .returned _ =>
        let r := waitUntil rt f n (rt.sleep s.world)
        ⟨r.outcome, r.world, s.trace ++ r.trace⟩
      | .panicked msg =>
        if rt.reallyCrash then ⟨.panicked msg, s.world, s.trace ++ [.handleCrash]⟩
        else
          let r := waitUntil rt f n (rt.sleep s.world)
          ⟨r.outcome, r.world, s.trace ++ .handleCrash :: r.trace⟩
      | .blocked => ⟨.blocked, s.world, s.trace⟩
      | .outOfFuel => ⟨.outOfFuel, s.world, s.trace⟩

/-- The statements of `Run` between its two `defer`s and its end (lines 77-148).
The cron job and the informer run in goroutines of their own; starting them is
recorded, what they do is not part of this thread. -/
def runBody (c : Controller σ) (rt : Runtime σ) (fuel : Nat) (w : σ) : Exec σ Unit :=
  let s := rt.WaitForCacheSync (HasSynced c) w
  let b : Exec σ Unit :=
    if !s.1 then ⟨.returned (), s.2, [.handleError "Error syncing cache"]⟩
    else
      waitUntil rt
        (fun w' => let r := runWorker c fuel w'; ⟨r.outcome, r.world, .runWorker :: r.trace⟩)
        fuel s.2
  ⟨b.outcome, b.world, [.cronStart, .informerRun, .waitForCacheSync s.1] ++ b.trace⟩

/-- The method `Controller.Run`: the body, then the deferred calls in reverse
order of their `defer`: `c.queue.ShutDown()`, then `utilruntime.HandleCrash()`,
which acts only on a panic.  A body that never ends runs no deferred call. -/
def Run (c : Controller σ) (rt : Runtime σ) (fuel : Nat) (w : σ) : Exec σ Unit :=
  let b := runBody c rt fuel w
  match b.outcome with
  | .returned u => ⟨.returned u, c.queue.ShutDown b.world, b.trace ++ [.shutDown]⟩
  | .panicked msg =>
    ⟨if rt.reallyCrash then .panicked msg else .returned (), c.queue.ShutDown b.world,
      b.trace ++ [.shutDown, .handleCrash]⟩
  | .blocked => b
  | .outOfFuel => b

/-! ## A model of the work queue -/

/-- Modelled from the spec: the work queue of section 4.2, whose implementation
(`k8s.io/client-go/util/workqueue`) is a dependency outside the repository.  A
FIFO of pending keys with the set of keys waiting to be processed (`dirty`), the
set of keys in flight (`processing`), the shutdown flag and the retry counter of
every key. -/
structure WorkQueue where
  queue : List QKey
  dirty : List QKey
  processing : List QKey
  shuttingDown : Bool
  failures : QKey → Nat

namespace WorkQueue

/-- The operation `add(key)`: a key already pending is not queued twice, a key in flight is
queued again only when it is done, nothing is accepted after shutdown. -/
def Add (key : QKey) (q : WorkQueue) : WorkQueue :=
  if q.shuttingDown then q
  else if key ∈ q.dirty then q
  else if key ∈ q.processing then { q with dirty := key :: q.dirty }
  else { q with dirty := key :: q.dirty, queue := q.queue ++ [key] }

/-- The operation `get()`: the first pending key, which becomes in flight; the shutdown
report once the queue is drained and shut down; otherwise it blocks. -/
def Get (q : WorkQueue) : Option ((QKey × Bool) × WorkQueue) :=
  match q.queue with
  | key :: rest =>
    some ((key, false),
      { q with queue := rest, processing := key :: q.processing, dirty := q.dirty.erase key })
  | [] => if q.shuttingDown then some ((.other 0, true), q) else none

/-- The operation `done(key)`: the key is no longer in flight and, when it was added again in
the meantime, it is queued. -/
def Done (key : QKey) (q : WorkQueue) : WorkQueue :=
  if key ∈ q.dirty then
    { q with processing := q.processing.erase key, queue := q.queue ++ [key] }
  else
    { q with processing := q.processing.erase key }

/-- The operation `forget(key)`: resets the retry counter of the key. -/
def Forget (key : QKey) (q : WorkQueue) : WorkQueue :=
  { q with failures := fun k => if k = key then 0 else q.failures k }

/-- The operation `numRequeues(key)`. -/
def NumRequeues (key : QKey) (q : WorkQueue) : Nat := q.failures key

/-- The operation `addRateLimited(key)`: counts one more failure of the key and adds it; the
backoff delay is real time and is taken as elapsed. -/
def AddRateLimited (key : QKey) (q : WorkQueue) : WorkQueue :=
  Add key { q with failures := fun k => if k = key then q.failures k + 1 else q.failures k }

/-- The operation `shutDown()`. -/
def ShutDown (q : WorkQueue) : WorkQueue := { q with shuttingDown := true }

/-- The model as an implementation of the queue interface. -/
def ops : RateLimitingInterface WorkQueue where
  Get := Get
  Done := Done
  Forget := Forget
  AddRateLimited := AddRateLimited
  NumRequeues := NumRequeues
  ShutDown := ShutDown

/-- A queue holding the given pending keys and no failure count. -/
def pending (keys : List QKey) : WorkQueue :=
  { queue := keys, dirty := keys, processing := [], shuttingDown := false,
    failures := fun _ => 0 }

end WorkQueue

/-- An informer whose indexer answers every key with the same lookup result. -/
def constInformer (r : Lookup) : SharedIndexInformer WorkQueue where
  GetByKey := fun _ _ => r
  HasSynced := fun _ => true

/-- A handler that returns from both operations and leaves the world alone. -/
def quietHandler : Handler WorkQueue where
  ObjectCreated := fun _ w => (none, w)
  ObjectDeleted := fun _ w => (none, w)

/-- A controller over the model queue with a constant indexer and a handler. -/
def modelController (r : Lookup) (h : Handler WorkQueue) : Controller WorkQueue where
  queue := WorkQueue.ops
  informer := constInformer r
  handler := h

/-! ## Splitting a manifest into workflows

Go strings are modelled as lists of characters: `string(body)` is read rune by
rune by `regexp` and `strings`, and the separator and `=` are ASCII. -/

/-- The part of `wfv1.Parameter` the code touches: `Name` and `Value` (a
`*string`); the other fields are carried along as an opaque payload, `0` for the
zero value. -/
structure Parameter where
  Name : List Char
  Value : Option (List Char)
  rest : Nat
  deriving DecidableEq

/-- The part of `wfv1.Workflow` the code touches: `Spec.Arguments.Parameters`;
everything else is an opaque payload. -/
structure Workflow where
  Parameters : List Parameter
  rest : Nat
  deriving DecidableEq

/-- Error codes of `github.com/argoproj/argo/errors`. -/
inductive ErrorCode where
  | CodeBadRequest
  | CodeInternal
  deriving DecidableEq

/-- The value built by `errors.New(code, message)`. -/
structure ArgoError where
  code : ErrorCode
  message : String
  deriving DecidableEq

/-- The two results of `SplitYAMLFile`; `none` is Go's `nil`. -/
structure SplitResult where
  manifests : Option (List Workflow)
  err : Option ArgoError
  deriving DecidableEq

/-- The expression of `yamlSeparator`, a literal: a newline and three dashes. -/
def yamlSeparator : List Char := ['\n', '-', '-', '-']

/-- The rest of `s` after `sep` when `s` starts with `sep`. -/
def matchAt : List Char → List Char → Option (List Char)
  | [], s => some s
  | _ :: _, [] => none
  | p :: ps, ch :: cs => if p = ch then matchAt ps cs else none

/-- The scan behind `Regexp.Split(s, -1)` for a literal expression: the
substrings between the successive leftmost matches, the one after the last match
included.  One unit of fuel per step of the scan. -/
def splitScan (sep : List Char) : Nat → List Char → List Char → List (List Char)
  | 0, cur, _ => [cur.reverse]
  | n + 1, cur, s =>
    match matchAt sep s with
    | some rest => cur.reverse :: splitScan sep n [] rest
    | none =>
      match s with
      | [] => [cur.reverse]
      | ch :: cs => splitScan sep n (ch :: cur) cs

/-- The call `yamlSeparator.Split(s, -1)`. -/
def regexpSplit (sep s : List Char) : List (List Char) :=
  splitScan sep (s.length + 1) [] s

/-- The predicate `unicode.IsSpace`. -/
def IsSpace (ch : Char) : Bool :=
  let r := ch.toNat
  if r ≤ 0xFF then
    r = 0x09 || r = 0x0A || r = 0x0B || r = 0x0C || r = 0x0D || r = 0x20 || r = 0x85 || r = 0xA0
  else
    r = 0x1680 || (0x2000 ≤ r && r ≤ 0x200A) || r = 0x2028 || r = 0x2029 || r = 0x202F ||
      r = 0x205F || r = 0x3000

/-- The function `strings.TrimSpace`: the string without its leading and trailing white space. -/
def TrimSpace (s : List Char) : List Char :=
  ((s.dropWhile IsSpace).reverse.dropWhile IsSpace).reverse

/-- The `for _, manifestStr := range manifestsStrings` loop of `SplitYAMLFile`,
with `manifests` as its accumulator; `unmarshal` stands for `yaml.Unmarshal`
into a fresh `wfv1.Workflow`. -/
def splitLoop (unmarshal : List Char → Except String Workflow) :
    List (List Char) → List Workflow → SplitResult
  | [], manifests => ⟨some manifests, none⟩
  | manifestStr :: more, manifests =>
    if TrimSpace manifestStr = [] then splitLoop unmarshal more manifests
    else
      match unmarshal manifestStr with
      | .error e => ⟨none, some ⟨.CodeBadRequest, e⟩⟩
      | .ok wf => splitLoop unmarshal more (manifests ++ [wf])

/-- The function `workflow.SplitYAMLFile` (workflow/splityaml.go). -/
def SplitYAMLFile (unmarshal : List Char → Except String Workflow) (body : List Char) :
    SplitResult :=
  let manifestsStrings := regexpSplit yamlSeparator body
  splitLoop unmarshal manifestsStrings []

/-- The loop of the unexported `splitYAMLFile` of controller.go, written out
from that copy of the code. -/
def splitLoopMain (unmarshal : List Char → Except String Workflow) :
    List (List Char) → List Workflow → SplitResult
  | [], manifests => ⟨some manifests, none⟩
  | manifestStr :: more, manifests =>
    if TrimSpace manifestStr = [] then splitLoopMain unmarshal more manifests
    else
      match unmarshal manifestStr with
      | .error e => ⟨none, some ⟨.CodeBadRequest, e⟩⟩
      | .ok wf => splitLoopMain unmarshal more (manifests ++ [wf])

/-- The function `splitYAMLFile` (controller.go). -/
def splitYAMLFile (unmarshal : List Char → Except String Workflow) (body : List Char) :
    SplitResult :=
  let manifestsStrings := regexpSplit yamlSeparator body
  splitLoopMain unmarshal manifestsStrings []

/-! ## Submitting a workflow -/

/-- The call `strings.SplitN(s, "=", 2)`: the string itself when it has no `=`, otherwise
what stands before the first `=` and what stands after it. -/
def SplitN2 : List Char → List (List Char)
  | [] => [[]]
  | ch :: cs =>
    if ch = '=' then [[], cs]
    else
      match SplitN2 cs with
      | [before, after] => [ch :: before, after]
      | _ => [ch :: cs]

/-- The first loop of the merge (submit.go lines 44-56, controller.go lines
105-117), over `wfParameters`, with `newParams` and `passedParams` as state. -/
def overrideLoop :
    List (List Char) → List Parameter × List (List Char) → List Parameter × List (List Char)
  | [], st => st
  | paramStr :: more, (newParams, passedParams) =>
    match SplitN2 paramStr with
    | [name, value] =>
      overrideLoop more (newParams ++ [⟨name, some value, 0⟩], name :: passedParams)
    | _ => overrideLoop more (newParams, passedParams)

/-- The second loop of the merge (submit.go lines 57-63, controller.go lines
118-124), over the parameters of the first workflow. -/
def keepLoop (passedParams : List (List Char)) :
    List Parameter → List Parameter → List Parameter
  | [], newParams => newParams
  | param :: more, newParams =>
    if param.Name ∈ passedParams then keepLoop passedParams more newParams
    else keepLoop passedParams more (newParams ++ [param])

/-- The two loops together: the value assigned to
`workFlows[0].Spec.Arguments.Parameters`. -/
def mergeParameters (wfParameters : List (List Char)) (existing : List Parameter) :
    List Parameter :=
  let st := overrideLoop wfParameters ([], [])
  keepLoop st.2 existing st.1

/-- The literal `wfParameters` of both copies of the code. -/
def wfParameters : List (List Char) :=
  ["hello=one".toList, "bye=two".toList, "what=is".toList]

/-- What `SubmitWorkflow` and the cron job get from outside, each call with its
value and its error (`none` is `nil`): the current user's home directory, the
client configuration built from a kubeconfig path, the workflow client
(`NewForConfigOrDie` has no error result, it panics on failure), the manifest
file read by the cron job, `yaml.Unmarshal` and `wfClient.Create`; and the
library function `filepath.Join`, which joins and cleans path elements. -/
structure SubmitEnv where
  userCurrent : List Char × Option String
  filepathJoin : List (List Char) → List Char
  buildConfigFromFlags : List Char → Nat × Option String
  newForConfigOrDie : Nat → Except String Nat
  readFile : List Char × Option String
  unmarshal : List Char → Except String Workflow
  create : Nat → Workflow → Workflow × Option String

/-- How a submission ends and the workflow it handed to `wfClient.Create`, if it
got that far. -/
structure Submission where
  outcome : Outcome (Option String)
  submitted : Option Workflow
  deriving DecidableEq

/-- The helper `checkErr` followed by the statements after it: a panic with the
error's message when the error is not nil, the rest otherwise. -/
def checkErr (err : Option String) (next : Submission) : Submission :=
  match err with
  | some msg => ⟨.panicked msg, none⟩
  | none => next

/-- The call `filepath.Join(usr.HomeDir, ".kube", "config")`. -/
def kubeconfigPath (env : SubmitEnv) (home : List Char) : List Char :=
  env.filepathJoin [home, ".kube".toList, "config".toList]

/-- The statements from the `checkErr` after the split to the end (submit.go
lines 39-71, controller.go lines 100-130), given the client and the split's two
results.  Indexing `workFlows[0]` panics on an empty list. -/
def submitTail (env : SubmitEnv) (wfClient : Nat) (r : SplitResult) : Submission :=
  checkErr (r.err.map ArgoError.message) <|
    match r.manifests.getD [] with
    | [] => ⟨.panicked "index out of range [0] with length 0", none⟩
    | first :: _ =>
      let newParams := mergeParameters wfParameters first.Parameters
      let wf : Workflow := { first with Parameters := newParams }
      let created := env.create wfClient wf
      ⟨(checkErr created.2 ⟨.returned none, none⟩).outcome, some wf⟩

/-- The function `workflow.SubmitWorkflow` (workflow/submit.go). -/
def SubmitWorkflow (env : SubmitEnv) (workflowBody : List Char) : Submission :=
  let usr := env.userCurrent
  checkErr usr.2 <|
    let kubeconfig := kubeconfigPath env usr.1
    let config := env.buildConfigFromFlags kubeconfig
    checkErr config.2 <|
      match env.newForConfigOrDie config.1 with
      | .error msg => ⟨.panicked msg, none⟩
      | .ok wfClient =>
        checkErr config.2 <|
          submitTail env wfClient (SplitYAMLFile env.unmarshal workflowBody)

/-- The function `Run` hands to the cron scheduler (controller.go lines 80-133);
it returns nothing, so a normal end is `returned none`. -/
def cronFunc (env : SubmitEnv) : Submission :=
  let usr := env.userCurrent
  checkErr usr.2 <|
    let kubeconfig := kubeconfigPath env usr.1
    let config := env.buildConfigFromFlags kubeconfig
    checkErr config.2 <|
      match env.newForConfigOrDie config.1 with
      | .error msg => ⟨.panicked msg, none⟩
      | .ok wfClient =>
        let body := env.readFile
        checkErr body.2 <|
          submitTail env wfClient (splitYAMLFile env.unmarshal body.1)

/-! ## Specification-level definitions -/

/-- The segments joined again with the separator between them. -/
def joinWith (sep : List Char) : List (List Char) → List Char
  | [] => []
  | [seg] => seg
  | seg :: next :: more => seg ++ sep ++ joinWith sep (next :: more)

/-- Every segment parsed, in order; the error of the first one that fails. -/
def parseAll (unmarshal : List Char → Except String Workflow) :
    List (List Char) → Except String (List Workflow)
  | [] => .ok []
  | seg :: more =>
    match unmarshal seg with
    | .error e => .error e
    | .ok wf =>
      match parseAll unmarshal more with
      | .error e => .error e
      | .ok wfs => .ok (wf :: wfs)

/-- The segments of the body that are not empty after trimming white space. -/
def nonBlankSegments (body : List Char) : List (List Char) :=
  (regexpSplit yamlSeparator body).filter (fun seg => decide (TrimSpace seg ≠ []))

/-- The result as the specification words it: one workflow per non-blank
segment, in document order, or a bad-request error and a nil list when one of
them fails to unmarshal. -/
def specSplitYAML (unmarshal : List Char → Except String Workflow) (body : List Char) :
    SplitResult :=
  match parseAll unmarshal (nonBlankSegments body) with
  | .ok wfs => ⟨some wfs, none⟩
  | .error e => ⟨none, some ⟨.CodeBadRequest, e⟩⟩

/-- An override string as the specification reads it: with an `=`, the parameter
named by the text before the first `=` whose value is everything after it;
without one, nothing. -/
def parseOverride (s : List Char) : Option Parameter :=
  if '=' ∈ s then
    some ⟨s.takeWhile (fun ch => ch ≠ '='), some ((s.dropWhile (fun ch => ch ≠ '=')).drop 1), 0⟩
  else none

/-- The merge as the specification words it: the accepted overrides in their
order, then the existing parameters whose name no accepted override bears, in
their order. -/
def specMerge (overrides : List (List Char)) (existing : List Parameter) : List Parameter :=
  overrides.filterMap parseOverride ++
    existing.filter
      (fun param => decide (param.Name ∉ (overrides.filterMap parseOverride).map Parameter.Name))

/-! ## Inputs used to exercise the statements -/

/-- A handler whose `ObjectCreated` panics and whose `ObjectDeleted` adds the key
`ns/a` to the queue again before it returns. -/
def busyHandler : Handler WorkQueue where
  ObjectCreated := fun _ w => (some "handler failed", w)
  ObjectDeleted := fun _ w => (none, WorkQueue.AddRateLimited (.str "ns/a") w)

/-- An environment in which every outside call succeeds and every segment
unmarshals into a workflow with one parameter, `hello=old`. -/
def okEnv : SubmitEnv where
  userCurrent := ("/root".toList, none)
  filepathJoin := fun _ => "/root/.kube/config".toList
  buildConfigFromFlags := fun _ => (1, none)
  newForConfigOrDie := fun _ => .ok 2
  readFile := ("kind: Workflow".toList, none)
  unmarshal := fun _ => .ok ⟨[⟨"hello".toList, some "old".toList, 5⟩], 9⟩
  create := fun _ wf => (wf, none)

/-- The handler calls of a trace. -/
def handlerCalls (t : List Event) : List Event := t.filter Event.isHandlerCall

/-- A lookup that fails: nil item, `exists` false, an index error. -/
def failingLookup : Lookup := ⟨none, false, some "index error"⟩

/-- The calls of one pass of `processNextItem` over the key `ns/a` whose lookup
fails while its retry counter is below 5. -/
def retryPass : List Event :=
  [.get (.str "ns/a") false, .getByKey "ns/a", .numRequeues (.str "ns/a"),
    .addRateLimited (.str "ns/a"), .objectDeleted none, .forget (.str "ns/a"),
    .done (.str "ns/a")]

/-- The handler operation chosen by `exists`, called with the looked-up item. -/
def handlerCall (c : Controller σ) (r : Lookup) (w : σ) : Option String × σ :=
  if r.exists_ then c.handler.ObjectCreated r.item w else c.handler.ObjectDeleted r.item w

/-- The event of the handler operation chosen by `exists`. -/
def handlerEvent (r : Lookup) : Event :=
  if r.exists_ then .objectCreated r.item else .objectDeleted r.item

/-- The handler call `processNextItem` makes for the string key `keyRaw`
delivered in the world `w1`: on the result of the lookup, in the world left by
the `if err != nil` block. -/
def handlerCallOf (c : Controller σ) (keyRaw : String) (w1 : σ) : Option String × σ :=
  handlerCall c (c.informer.GetByKey keyRaw w1)
    (lookupErrorBlock c (.str keyRaw) (c.informer.GetByKey keyRaw w1).err w1).1

/-- The world after the first `n` calls of `processNextItem`. -/
def worldAfter (c : Controller σ) : Nat → σ → σ
  | 0, w => w
  | n + 1, w => worldAfter c n (processNextItem c w).world

/-- The calls made by the first `n` calls of `processNextItem`, in order. -/
def traceOf (c : Controller σ) : Nat → σ → List Event
  | 0, _ => []
  | n + 1, w => (processNextItem c w).trace ++ traceOf c n (processNextItem c w).world

/-- A runtime whose cache sync answers `synced` and whose stop channel is closed
once the queue is empty. -/
def modelRuntime (synced : Bool) : Runtime WorkQueue where
  WaitForCacheSync := fun _ w => (synced, w)
  stopped := fun w => w.queue.isEmpty
  sleep := fun w => w
  reallyCrash := true

/-! ## The reconciliation worker: one item -/

section worker

variable (c : Controller σ)

theorem processNextItem_of_get {w w1 : σ} {key : QKey}
    (hget : c.queue.Get w = some ((key, false), w1)) :
    processNextItem c w =
      ⟨(processBody c key w1).outcome, c.queue.Done key (processBody c key w1).world,
        .get key false :: ((processBody c key w1).trace ++ [.done key])⟩ := by
  simp [processNextItem, hget]

theorem processNextItem_of_quit {w w1 : σ} {key : QKey}
    (hget : c.queue.Get w = some ((key, true), w1)) :
    processNextItem c w = ⟨.returned false, w1, [.get key true]⟩ := by
  simp [processNextItem, hget]

theorem lookupErrorBlock_trace_cases (key : QKey) (err : Option String) (w : σ) :
    (lookupErrorBlock c key err w).2 = [] ∨
      (lookupErrorBlock c key err w).2 = [.numRequeues key, .addRateLimited key] ∨
      ∃ e, (lookupErrorBlock c key err w).2 = [.numRequeues key, .forget key, .handleError e] := by
  unfold lookupErrorBlock
  cases err with
  | none => simp
  | some e =>
    by_cases h : c.queue.NumRequeues key w < 5
    · simp [h]
    · simp [h]

theorem dispatchBlock_trace_cases (key : QKey) (r : Lookup) (w : σ) :
    (dispatchBlock c key r w).trace = [.objectDeleted r.item] ∨
      (dispatchBlock c key r w).trace = [.objectDeleted r.item, .forget key] ∨
      (dispatchBlock c key r w).trace = [.objectCreated r.item] ∨
      (dispatchBlock c key r w).trace = [.objectCreated r.item, .forget key] := by
  unfold dispatchBlock
  cases r.exists_ with
  | false =>
    rcases hd : c.handler.ObjectDeleted r.item w with ⟨_ | msg, w2⟩ <;> simp [hd]
  | true =>
    rcases hc : c.handler.ObjectCreated r.item w with ⟨_ | msg, w2⟩ <;> simp [hc]

/-- The body of `processNextItem` never calls `Done`, `Get` or `ShutDown` itself. -/
theorem processBody_trace_plain (key : QKey) (w : σ) (e : Event)
    (he : e ∈ (processBody c key w).trace) :
    (∀ k, e ≠ .done k) ∧ (∀ k q, e ≠ .get k q) ∧ e ≠ .shutDown ∧ e ≠ .runWorker ∧
      e ≠ .handleCrash := by
  cases key with
  | other tag => simp [processBody] at he
  | str keyRaw =>
    simp only [processBody, List.mem_cons, List.mem_append] at he
    rcases he with rfl | he | he
    · simp
    · rcases lookupErrorBlock_trace_cases c (.str keyRaw) (c.informer.GetByKey keyRaw w).err w
        with h | h | ⟨e', h⟩ <;> rw [h] at he <;> simp at he
      · rcases he with rfl | rfl <;> simp
      · rcases he with rfl | rfl | rfl <;> simp
    · rcases dispatchBlock_trace_cases c (.str keyRaw) (c.informer.GetByKey keyRaw w)
        (lookupErrorBlock c (.str keyRaw) (c.informer.GetByKey keyRaw w).err w).1
        with h | h | h | h <;> rw [h] at he <;> simp at he
      · subst he; simp
      · rcases he with rfl | rfl <;> simp
      · subst he; simp
      · rcases he with rfl | rfl <;> simp

/-- C2.  Whenever `Get` hands `processNextItem` a key without the shutdown flag,
the call's trace ends with `Done(key)` and holds no other `Done`: it is called
exactly once, for that key, as the last operation, whether the body returned or
panicked, and its effect is applied to the world the body left.  When `Get`
reports shutdown the trace holds no `Done` at all. -/
theorem done_exactly_once_and_last (w w1 : σ) (key : QKey) (quit : Bool)
    (hget : c.queue.Get w = some ((key, quit), w1)) :
    if quit then ∀ k, Event.done k ∉ (processNextItem c w).trace
    else
      (∃ pre, (processNextItem c w).trace = pre ++ [Event.done key] ∧
        ∀ k, Event.done k ∉ pre) ∧
      (processNextItem c w).trace.count (Event.done key) = 1 ∧
      ((processNextItem c w).trace.filter Event.isQueueOp).getLast? = some (Event.done key) ∧
      (processNextItem c w).world = c.queue.Done key (processBody c key w1).world := by
  cases quit with
  | true =>
    simp [processNextItem_of_quit c hget]
  | false =>
    have hplain := processBody_trace_plain c key w1
    have hnone : ∀ k, Event.done k ∉ (processBody c key w1).trace :=
      fun k hk => (hplain _ hk).1 k rfl
    simp only [Bool.false_eq_true, if_false, processNextItem_of_get c hget]
    refine ⟨⟨.get key false :: (processBody c key w1).trace, by simp, ?_⟩, ?_, ?_, trivial⟩
    · intro k hk
      simp only [List.mem_cons] at hk
      rcases hk with hk | hk
      · cases hk
      · exact hnone k hk
    · have h0 : (processBody c key w1).trace.count (Event.done key) = 0 :=
        List.count_eq_zero.mpr (hnone key)
      simp [List.count_cons, List.count_append, h0]
    · simp only [List.filter_cons, List.filter_append, Event.isQueueOp, if_true, List.filter_nil]
      rw [← List.cons_append, List.getLast?_append]
      simp

/-- C1 (amended).  For a string key delivered without the shutdown flag whose
lookup returns no error, the handler calls of `processNextItem` are exactly one:
`ObjectCreated` with the looked-up item when `exists` is true, `ObjectDeleted`
with the looked-up item when `exists` is false; so an absent object reaches
`ObjectDeleted` exactly when the lookup returned a nil item. -/
theorem handler_called_once_with_lookup_item (w w1 : σ) (keyRaw : String)
    (hget : c.queue.Get w = some ((.str keyRaw, false), w1))
    (herr : (c.informer.GetByKey keyRaw w1).err = none) :
    handlerCalls (processNextItem c w).trace =
      [if (c.informer.GetByKey keyRaw w1).exists_
        then Event.objectCreated (c.informer.GetByKey keyRaw w1).item
        else Event.objectDeleted (c.informer.GetByKey keyRaw w1).item] := by
  rw [processNextItem_of_get c hget]
  simp only [processBody, lookupErrorBlock, herr, dispatchBlock, handlerCalls]
  cases hex : (c.informer.GetByKey keyRaw w1).exists_ with
  | false =>
    rcases hd : c.handler.ObjectDeleted (c.informer.GetByKey keyRaw w1).item w1
      with ⟨_ | msg, w2⟩ <;> simp [hd, List.filter_cons, Event.isHandlerCall]
  | true =>
    rcases hc : c.handler.ObjectCreated (c.informer.GetByKey keyRaw w1).item w1
      with ⟨_ | msg, w2⟩ <;> simp [hc, List.filter_cons, Event.isHandlerCall]

/-- C5.  For a string key delivered without the shutdown flag whose lookup
returns no error and whose handler call returns, `processNextItem` returns true
after exactly these calls: `Get`, the lookup, the handler operation chosen by
`exists`, `Forget(key)`, `Done(key)`; `AddRateLimited` is not among them.  On a
queue where `Forget` resets the counter of its key and `Done` leaves counters
alone, `NumRequeues(key)` is 0 in the world the call leaves, whatever the handler
did to the world. -/
theorem forget_after_handler_before_done (w w1 : σ) (keyRaw : String)
    (hget : c.queue.Get w = some ((.str keyRaw, false), w1))
    (herr : (c.informer.GetByKey keyRaw w1).err = none)
    (hret : (if (c.informer.GetByKey keyRaw w1).exists_
      then c.handler.ObjectCreated (c.informer.GetByKey keyRaw w1).item w1
      else c.handler.ObjectDeleted (c.informer.GetByKey keyRaw w1).item w1).1 = none)
    (hforget : ∀ k v, c.queue.NumRequeues k (c.queue.Forget k v) = 0)
    (hdone : ∀ k v, c.queue.NumRequeues k (c.queue.Done k v) = c.queue.NumRequeues k v) :
    (processNextItem c w).outcome = .returned true ∧
    (processNextItem c w).trace =
      [.get (.str keyRaw) false, .getByKey keyRaw,
        if (c.informer.GetByKey keyRaw w1).exists_
          then Event.objectCreated (c.informer.GetByKey keyRaw w1).item
          else Event.objectDeleted (c.informer.GetByKey keyRaw w1).item,
        .forget (.str keyRaw), .done (.str keyRaw)] ∧
    Event.addRateLimited (.str keyRaw) ∉ (processNextItem c w).trace ∧
    c.queue.NumRequeues (.str keyRaw) (processNextItem c w).world = 0 := by
  rw [processNextItem_of_get c hget]
  simp only [processBody, lookupErrorBlock, herr, dispatchBlock]
  cases hex : (c.informer.GetByKey keyRaw w1).exists_ with
  | false =>
    rw [hex] at hret
    rcases hd : c.handler.ObjectDeleted (c.informer.GetByKey keyRaw w1).item w1
      with ⟨_ | msg, w2⟩
    · simp [hd, hforget, hdone]
    · simp [hd] at hret
  | true =>
    rw [hex] at hret
    rcases hc : c.handler.ObjectCreated (c.informer.GetByKey keyRaw w1).item w1
      with ⟨_ | msg, w2⟩
    · simp [hc, hforget, hdone]
    · simp [hc] at hret

theorem processBody_outcome (key : QKey) (w : σ) :
    (processBody c key w).outcome = .returned true ∨
      ∃ msg, (processBody c key w).outcome = .panicked msg := by
  cases key with
  | other tag => exact Or.inr ⟨_, rfl⟩
  | str keyRaw =>
    simp only [processBody, dispatchBlock]
    cases (c.informer.GetByKey keyRaw w).exists_ with
    | false =>
      rcases hd : c.handler.ObjectDeleted (c.informer.GetByKey keyRaw w).item
        (lookupErrorBlock c (.str keyRaw) (c.informer.GetByKey keyRaw w).err w).1
        with ⟨_ | msg, w2⟩ <;> simp [hd]
    | true =>
      rcases hc : c.handler.ObjectCreated (c.informer.GetByKey keyRaw w).item
        (lookupErrorBlock c (.str keyRaw) (c.informer.GetByKey keyRaw w).err w).1
        with ⟨_ | msg, w2⟩ <;> simp [hc]

/-- A call of `processNextItem` that returns false got the shutdown report. -/
theorem get_quit_of_returned_false (w : σ)
    (h : (processNextItem c w).outcome = .returned false) :
    ∃ key w1, c.queue.Get w = some ((key, true), w1) := by
  rcases hget : c.queue.Get w with _ | ⟨⟨key, quit⟩, w1⟩
  · simp [processNextItem, hget] at h
  · cases quit with
    | true => exact ⟨key, w1, rfl⟩
    | false =>
      rw [processNextItem_of_get c hget] at h
      rcases processBody_outcome c key w1 with hb | ⟨msg, hb⟩ <;> simp [hb] at h

/-- The calls of one `processNextItem`: never `ShutDown`, a crash report or a
worker start, and a `Get` with the shutdown flag only when the call returns
false. -/
theorem processNextItem_trace_plain (w : σ) (e : Event)
    (he : e ∈ (processNextItem c w).trace) :
    e ≠ .shutDown ∧ e ≠ .runWorker ∧ e ≠ .handleCrash ∧
      (∀ k, e = .get k true → (processNextItem c w).outcome = .returned false) := by
  rcases hget : c.queue.Get w with _ | ⟨⟨key, quit⟩, w1⟩
  · simp [processNextItem, hget] at he
  · cases quit with
    | true =>
      rw [processNextItem_of_quit c hget] at he ⊢
      simp at he
      subst he
      simp
    | false =>
      rw [processNextItem_of_get c hget] at he ⊢
      simp only [List.mem_cons, List.mem_append, List.mem_singleton, List.not_mem_nil,
        or_false] at he
      rcases he with rfl | he | rfl
      · simp
      · have hp := processBody_trace_plain c key w1 e he
        refine ⟨hp.2.2.1, hp.2.2.2.1, hp.2.2.2.2, ?_⟩
        intro k hk
        exact absurd hk (hp.2.1 k true)
      · simp

/-! ## The worker loop -/

theorem runWorker_succ_of_true (n : Nat) (w : σ)
    (h : (processNextItem c w).outcome = .returned true) :
    runWorker c (n + 1) w =
      ⟨(runWorker c n (processNextItem c w).world).outcome,
        (runWorker c n (processNextItem c w).world).world,
        (processNextItem c w).trace ++ (runWorker c n (processNextItem c w).world).trace⟩ := by
  simp [runWorker, h]

theorem runWorker_succ_of_false (n : Nat) (w : σ)
    (h : (processNextItem c w).outcome = .returned false) :
    runWorker c (n + 1) w =
      ⟨.returned (), (processNextItem c w).world, (processNextItem c w).trace⟩ := by
  simp [runWorker, h]

/-- The calls of the worker loop: never `ShutDown`, a crash report or a worker
start. -/
theorem runWorker_trace_plain (n : Nat) (w : σ) (e : Event)
    (he : e ∈ (runWorker c n w).trace) :
    e ≠ .shutDown ∧ e ≠ .runWorker ∧ e ≠ .handleCrash := by
  induction n generalizing w with
  | zero => simp [runWorker] at he
  | succ n ih =>
    have hp := processNextItem_trace_plain c w e
    rcases ho : (processNextItem c w).outcome with b | msg | _ | _
    · cases b with
      | true =>
        rw [runWorker_succ_of_true c n w ho] at he
        simp only [List.mem_append] at he
        rcases he with he | he
        · exact ⟨(hp he).1, (hp he).2.1, (hp he).2.2.1⟩
        · exact ih _ he
      | false =>
        rw [runWorker_succ_of_false c n w ho] at he
        exact ⟨(hp he).1, (hp he).2.1, (hp he).2.2.1⟩
    all_goals
      simp only [runWorker, ho] at he
      exact ⟨(hp he).1, (hp he).2.1, (hp he).2.2.1⟩

/-- A worker loop that returns ends on the `Get` that reported shutdown, the
only such `Get` of its trace. -/
theorem runWorker_returned_trace (n : Nat) (w : σ)
    (h : (runWorker c n w).outcome = .returned ()) :
    ∃ pre key, (runWorker c n w).trace = pre ++ [.get key true] ∧
      ∀ k, Event.get k true ∉ pre := by
  induction n generalizing w with
  | zero => simp [runWorker] at h
  | succ n ih =>
    rcases ho : (processNextItem c w).outcome with b | msg | _ | _
    · cases b with
      | true =>
        rw [runWorker_succ_of_true c n w ho] at h ⊢
        obtain ⟨pre, key, htr, hpre⟩ := ih _ h
        refine ⟨(processNextItem c w).trace ++ pre, key, ?_, ?_⟩
        · simp only [htr, List.append_assoc]
        · intro k hk
          rw [List.mem_append] at hk
          rcases hk with hk | hk
          · have := (processNextItem_trace_plain c w _ hk).2.2.2 k rfl
            rw [ho] at this
            simp at this
          · exact hpre k hk
      | false =>
        obtain ⟨key, w1, hget⟩ := get_quit_of_returned_false c w ho
        rw [runWorker_succ_of_false c n w ho, processNextItem_of_quit c hget]
        exact ⟨[], key, rfl, by simp⟩
    all_goals simp [runWorker, ho] at h

/-- When the first `m` calls return true and the next returns false, the loop
returns after exactly those calls, given any fuel above `m`. -/
theorem runWorker_stops_at_shutdown (m : Nat) (w : σ)
    (htrue : ∀ i, i < m → (processNextItem c (worldAfter c i w)).outcome = .returned true)
    (hfalse : (processNextItem c (worldAfter c m w)).outcome = .returned false)
    (fuel : Nat) (hfuel : m < fuel) :
    runWorker c fuel w = ⟨.returned (), worldAfter c (m + 1) w, traceOf c (m + 1) w⟩ := by
  induction m generalizing w fuel with
  | zero =>
    obtain ⟨n, rfl⟩ : ∃ n, fuel = n + 1 := ⟨fuel - 1, by omega⟩
    rw [runWorker_succ_of_false c n w hfalse]
    simp [worldAfter, traceOf]
  | succ m ih =>
    obtain ⟨n, rfl⟩ : ∃ n, fuel = n + 1 := ⟨fuel - 1, by omega⟩
    have h0 : (processNextItem c w).outcome = .returned true := htrue 0 (by omega)
    rw [runWorker_succ_of_true c n w h0]
    have := ih (processNextItem c w).world
      (fun i hi => by simpa [worldAfter] using htrue (i + 1) (by omega))
      (by simpa [worldAfter] using hfalse) n (by omega)
    rw [this]
    simp [worldAfter, traceOf]

theorem traceOf_succ_last (m : Nat) (w : σ) :
    traceOf c (m + 1) w = traceOf c m w ++ (processNextItem c (worldAfter c m w)).trace := by
  induction m generalizing w with
  | zero => simp [traceOf, worldAfter]
  | succ m ih =>
    rw [traceOf, ih, traceOf, worldAfter, List.append_assoc]

theorem traceOf_no_quit (m : Nat) (w : σ)
    (htrue : ∀ i, i < m → (processNextItem c (worldAfter c i w)).outcome = .returned true) :
    ∀ k, Event.get k true ∉ traceOf c m w := by
  induction m with
  | zero => simp [traceOf]
  | succ m ih =>
    intro k hk
    rw [traceOf_succ_last, List.mem_append] at hk
    rcases hk with hk | hk
    · exact ih (fun i hi => htrue i (by omega)) k hk
    · have := (processNextItem_trace_plain c _ _ hk).2.2.2 k rfl
      rw [htrue m (by omega)] at this
      simp at this

theorem dispatchBlock_of_return (key : QKey) (r : Lookup) (w : σ)
    (h : (handlerCall c r w).1 = none) :
    (dispatchBlock c key r w).outcome = .returned true := by
  unfold handlerCall at h
  unfold dispatchBlock
  cases hex : r.exists_ with
  | false =>
    rw [hex] at h
    rcases hd : c.handler.ObjectDeleted r.item w with ⟨_ | msg, w2⟩
    · simp
    · simp [hd] at h
  | true =>
    rw [hex] at h
    rcases hc : c.handler.ObjectCreated r.item w with ⟨_ | msg, w2⟩
    · simp
    · simp [hc] at h

theorem dispatchBlock_of_panic (key : QKey) (r : Lookup) (w : σ) (msg : String)
    (h : (handlerCall c r w).1 = some msg) :
    dispatchBlock c key r w = ⟨.panicked msg, (handlerCall c r w).2, [handlerEvent r]⟩ := by
  unfold handlerCall at h ⊢
  unfold dispatchBlock handlerEvent
  cases hex : r.exists_ with
  | false =>
    rcases hd : c.handler.ObjectDeleted r.item w with ⟨_ | m, w2⟩
    · simp [hex, hd] at h
    · have hm : m = msg := by simpa [hex, hd] using h
      subst hm
      simp
  | true =>
    rcases hc : c.handler.ObjectCreated r.item w with ⟨_ | m, w2⟩
    · simp [hex, hc] at h
    · have hm : m = msg := by simpa [hex, hc] using h
      subst hm
      simp

/-- When the first `m` calls return true and the next one panics, the loop ends
in that panic after exactly those calls, given any fuel above `m`. -/
theorem runWorker_stops_at_panic (m : Nat) (msg : String) (w : σ)
    (htrue : ∀ i, i < m → (processNextItem c (worldAfter c i w)).outcome = .returned true)
    (hpanic : (processNextItem c (worldAfter c m w)).outcome = .panicked msg)
    (fuel : Nat) (hfuel : m < fuel) :
    runWorker c fuel w = ⟨.panicked msg, worldAfter c (m + 1) w, traceOf c (m + 1) w⟩ := by
  induction m generalizing w fuel with
  | zero =>
    obtain ⟨n, rfl⟩ : ∃ n, fuel = n + 1 := ⟨fuel - 1, by omega⟩
    have hp : (processNextItem c w).outcome = .panicked msg := hpanic
    simp [runWorker, hp, worldAfter, traceOf]
  | succ m ih =>
    obtain ⟨n, rfl⟩ : ∃ n, fuel = n + 1 := ⟨fuel - 1, by omega⟩
    have h0 : (processNextItem c w).outcome = .returned true := htrue 0 (by omega)
    rw [runWorker_succ_of_true c n w h0]
    have := ih (processNextItem c w).world
      (fun i hi => by simpa [worldAfter] using htrue (i + 1) (by omega))
      (by simpa [worldAfter] using hpanic) n (by omega)
    rw [this]
    simp [worldAfter, traceOf]

/-- C6 (amended).  `processNextItem` returns false exactly when `Get` reports
shutdown, and then its only call is that `Get`: no lookup, no handler call, no
`Done`, `Forget` or `AddRateLimited`.  When `Get` delivers a key the call either
returns true or panics: it returns true whenever the key is a string and the
handler call it makes returns; when that handler call panics the call ends in
that panic, right after the handler call and `Done(key)`; when the key is not a
string it ends in the panic of the assertion, after `Done(key)` alone.  Hence,
when the first `m` calls return true and the next `Get` reports shutdown,
`runWorker` returns after exactly those calls, its trace ends with that `Get`,
the first to report shutdown, and no handler call comes after it; when instead
the next call panics, `runWorker` ends in that panic; and every `runWorker` that
returns ends on the `Get` that reported shutdown. -/
theorem returns_false_iff_shutdown (w : σ) :
    ((processNextItem c w).outcome = .returned false ↔
      ∃ key w1, c.queue.Get w = some ((key, true), w1)) ∧
    (∀ key w1, c.queue.Get w = some ((key, true), w1) →
      processNextItem c w = ⟨.returned false, w1, [.get key true]⟩) ∧
    (∀ key w1, c.queue.Get w = some ((key, false), w1) →
      (processNextItem c w).outcome = .returned true ∨
        ∃ msg, (processNextItem c w).outcome = .panicked msg) ∧
    (∀ keyRaw w1, c.queue.Get w = some ((.str keyRaw, false), w1) →
      (handlerCallOf c keyRaw w1).1 = none →
      (processNextItem c w).outcome = .returned true) ∧
    (∀ keyRaw w1 msg, c.queue.Get w = some ((.str keyRaw, false), w1) →
      (handlerCallOf c keyRaw w1).1 = some msg →
      (processNextItem c w).outcome = .panicked msg ∧
      (processNextItem c w).world = c.queue.Done (.str keyRaw) (handlerCallOf c keyRaw w1).2 ∧
      ∃ pre, (processNextItem c w).trace =
        pre ++ [handlerEvent (c.informer.GetByKey keyRaw w1), .done (.str keyRaw)]) ∧
    (∀ tag w1, c.queue.Get w = some ((.other tag, false), w1) →
      processNextItem c w =
        ⟨.panicked "interface conversion: the key is not a string",
          c.queue.Done (.other tag) w1, [.get (.other tag) false, .done (.other tag)]⟩) ∧
    (∀ m, (∀ i, i < m → (processNextItem c (worldAfter c i w)).outcome = .returned true) →
      (processNextItem c (worldAfter c m w)).outcome = .returned false →
      ∀ fuel, m < fuel →
        ∃ key, runWorker c fuel w =
            ⟨.returned (), worldAfter c (m + 1) w, traceOf c m w ++ [.get key true]⟩ ∧
          ∀ k, Event.get k true ∉ traceOf c m w) ∧
    (∀ m msg,
      (∀ i, i < m → (processNextItem c (worldAfter c i w)).outcome = .returned true) →
      (processNextItem c (worldAfter c m w)).outcome = .panicked msg →
      ∀ fuel, m < fuel →
        runWorker c fuel w = ⟨.panicked msg, worldAfter c (m + 1) w, traceOf c (m + 1) w⟩) ∧
    (∀ fuel, (runWorker c fuel w).outcome = .returned () →
      ∃ pre key, (runWorker c fuel w).trace = pre ++ [.get key true] ∧
        ∀ k, Event.get k true ∉ pre) := by
  refine ⟨⟨get_quit_of_returned_false c w, ?_⟩, ?_, ?_, ?_, ?_, ?_, ?_, ?_, ?_⟩
  · rintro ⟨key, w1, hget⟩
    rw [processNextItem_of_quit c hget]
  · intro key w1 hget
    exact processNextItem_of_quit c hget
  · intro key w1 hget
    rw [processNextItem_of_get c hget]
    exact processBody_outcome c key w1
  · intro keyRaw w1 hget hret
    rw [processNextItem_of_get c hget]
    exact dispatchBlock_of_return c _ _ _ hret
  · intro keyRaw w1 msg hget hpanic
    rw [processNextItem_of_get c hget]
    have hd := dispatchBlock_of_panic c (.str keyRaw) _ _ msg hpanic
    simp only [processBody, hd]
    refine ⟨trivial, rfl, ⟨.get (.str keyRaw) false :: .getByKey keyRaw ::
      (lookupErrorBlock c (.str keyRaw) (c.informer.GetByKey keyRaw w1).err w1).2, ?_⟩⟩
    simp
  · intro tag w1 hget
    rw [processNextItem_of_get c hget]
    rfl
  · intro m htrue hfalse fuel hfuel
    obtain ⟨key, w1, hget⟩ := get_quit_of_returned_false c _ hfalse
    refine ⟨key, ?_, traceOf_no_quit c m w htrue⟩
    rw [runWorker_stops_at_shutdown c m w htrue hfalse fuel hfuel, traceOf_succ_last,
      processNextItem_of_quit c hget]
  · intro m msg htrue hpanic fuel hfuel
    exact runWorker_stops_at_panic c m msg w htrue hpanic fuel hfuel
  · intro fuel h
    exact runWorker_returned_trace c fuel w h

end worker

/-! ## Lifecycle -/

theorem waitUntil_trace_no_shutDown (rt : Runtime σ) (f : σ → Exec σ Unit)
    (hf : ∀ v, Event.shutDown ∉ (f v).trace) (n : Nat) (w : σ) :
    Event.shutDown ∉ (waitUntil rt f n w).trace := by
  induction n generalizing w with
  | zero => simp [waitUntil]
  | succ n ih =>
    simp only [waitUntil]
    by_cases hs : rt.stopped w = true
    · simp [hs]
    · simp only [hs]
      rcases ho : (f w).outcome with u | msg | _ | _
      · simp only [Bool.false_eq_true, if_false, List.mem_append, not_or]
        exact ⟨hf w, ih _⟩
      · by_cases hr : rt.reallyCrash = true
        · simp [hr, hf w]
        · simp only [hr, Bool.false_eq_true, if_false, List.mem_append, List.mem_cons, not_or]
          exact ⟨hf w, by simp, ih _⟩
      · simpa using hf w
      · simpa using hf w

theorem runBody_trace (c : Controller σ) (rt : Runtime σ) (fuel : Nat) (w : σ) :
    ∃ rest, (runBody c rt fuel w).trace =
        [.cronStart, .informerRun, .waitForCacheSync (rt.WaitForCacheSync (HasSynced c) w).1] ++ rest ∧
      Event.shutDown ∉ (runBody c rt fuel w).trace ∧
      ((rt.WaitForCacheSync (HasSynced c) w).1 = false →
        rest = [.handleError "Error syncing cache"] ∧
        (runBody c rt fuel w).outcome = .returned () ∧
        (runBody c rt fuel w).world = (rt.WaitForCacheSync (HasSynced c) w).2) := by
  refine ⟨_, rfl, ?_, ?_⟩
  · simp only [runBody]
    cases hs : (rt.WaitForCacheSync (HasSynced c) w).1 with
    | false => simp
    | true =>
      simp only [Bool.not_true, Bool.false_eq_true, if_false, List.mem_append, not_or]
      refine ⟨by simp, waitUntil_trace_no_shutDown rt _ ?_ fuel _⟩
      intro v hv
      simp only [List.mem_cons] at hv
      rcases hv with hv | hv
      · cases hv
      · exact (runWorker_trace_plain c fuel v _ hv).1 rfl
  · intro hs
    simp [runBody, hs]

/-- C7.  The trace of `Run` starts with the start of the cron scheduler, the start
of the informer and the cache-sync wait, so every later call comes after that
wait.  When the wait answers false, `Run` reports "Error syncing cache", calls
`ShutDown` and returns: no worker start, no `Get`, no handler call.  Whenever
`Run` ends, by returning or by a panic, `ShutDown` has been called exactly once,
after everything the body did. -/
theorem run_sync_gate_and_shutdown (c : Controller σ) (rt : Runtime σ) (fuel : Nat) (w : σ) :
    (∃ rest, (Run c rt fuel w).trace =
        [.cronStart, .informerRun, .waitForCacheSync (rt.WaitForCacheSync (HasSynced c) w).1] ++ rest ∧
      ((rt.WaitForCacheSync (HasSynced c) w).1 = false →
        rest = [.handleError "Error syncing cache", .shutDown] ∧
        (Run c rt fuel w).outcome = .returned () ∧
        (Run c rt fuel w).world = c.queue.ShutDown (rt.WaitForCacheSync (HasSynced c) w).2)) ∧
    (∀ e ∈ (Run c rt fuel w).trace,
      (e = .runWorker ∨ e.isHandlerCall = true ∨ ∃ k q, e = .get k q) →
        (rt.WaitForCacheSync (HasSynced c) w).1 = true) ∧
    ((Run c rt fuel w).outcome ≠ .blocked → (Run c rt fuel w).outcome ≠ .outOfFuel →
      (Run c rt fuel w).trace.count .shutDown = 1 ∧
      (Run c rt fuel w).world = c.queue.ShutDown (runBody c rt fuel w).world ∧
      ((Run c rt fuel w).trace = (runBody c rt fuel w).trace ++ [.shutDown] ∨
        (Run c rt fuel w).trace = (runBody c rt fuel w).trace ++ [.shutDown, .handleCrash])) := by
  obtain ⟨rest, hrest, hno, hfalse⟩ := runBody_trace c rt fuel w
  have h0 : (runBody c rt fuel w).trace.count .shutDown = 0 := List.count_eq_zero.mpr hno
  have hfirst : ∃ rest, (Run c rt fuel w).trace =
        [.cronStart, .informerRun, .waitForCacheSync (rt.WaitForCacheSync (HasSynced c) w).1] ++ rest ∧
      ((rt.WaitForCacheSync (HasSynced c) w).1 = false →
        rest = [.handleError "Error syncing cache", .shutDown] ∧
        (Run c rt fuel w).outcome = .returned () ∧
        (Run c rt fuel w).world = c.queue.ShutDown (rt.WaitForCacheSync (HasSynced c) w).2) := by
    by_cases hs : (rt.WaitForCacheSync (HasSynced c) w).1 = false
    · obtain ⟨hr, ho, hw⟩ := hfalse hs
      refine ⟨[.handleError "Error syncing cache", .shutDown], ?_, fun _ => ⟨rfl, ?_, ?_⟩⟩
      · simp only [Run, ho, hrest, hr]
        simp
      · simp only [Run, ho]
      · simp only [Run, ho, hw]
    · rcases ho : (runBody c rt fuel w).outcome with u | msg | _ | _
      · exact ⟨rest ++ [.shutDown], by simp [Run, ho, hrest], fun h => absurd h hs⟩
      · exact ⟨rest ++ [.shutDown, .handleCrash], by simp [Run, ho, hrest],
          fun h => absurd h hs⟩
      · exact ⟨rest, by simp [Run, ho, hrest], fun h => absurd h hs⟩
      · exact ⟨rest, by simp [Run, ho, hrest], fun h => absurd h hs⟩
  refine ⟨hfirst, ?_, ?_⟩
  · intro e he hkind
    obtain ⟨rest', htr, hf⟩ := hfirst
    by_contra hs
    have hs' : (rt.WaitForCacheSync (HasSynced c) w).1 = false := by simpa using hs
    obtain ⟨hr, -, -⟩ := hf hs'
    rw [htr, hr] at he
    simp only [List.cons_append, List.nil_append, List.mem_cons, List.not_mem_nil,
      or_false] at he
    rcases he with rfl | rfl | rfl | rfl | rfl <;> simp [Event.isHandlerCall] at hkind
  · intro hb hf
    rcases ho : (runBody c rt fuel w).outcome with u | msg | _ | _
    · simp [Run, ho, List.count_append, h0]
    · simp [Run, ho, List.count_append, h0]
    · simp [Run, ho] at hb
    · simp [Run, ho] at hf

/-! ## Splitting a manifest -/

theorem matchAt_eq_some (sep s rest : List Char) :
    matchAt sep s = some rest ↔ s = sep ++ rest := by
  induction sep generalizing s with
  | nil => simp [matchAt, eq_comm]
  | cons p ps ih =>
    cases s with
    | nil => simp [matchAt]
    | cons ch cs =>
      by_cases h : p = ch
      · subst h
        simp [matchAt, ih]
      · have h' : ¬ ch = p := fun e => h e.symm
        simp [matchAt, h, h']

theorem matchAt_eq_none (sep s : List Char) : matchAt sep s = none ↔ ¬ sep <+: s := by
  constructor
  · rintro h ⟨rest, hr⟩
    have := (matchAt_eq_some sep s rest).mpr hr.symm
    rw [h] at this
    cases this
  · intro h
    rcases hm : matchAt sep s with _ | rest
    · rfl
    · exact absurd ⟨rest, ((matchAt_eq_some sep s rest).mp hm).symm⟩ h

theorem splitScan_zero (sep cur s : List Char) : splitScan sep 0 cur s = [cur.reverse] := rfl

theorem splitScan_succ (sep : List Char) (n : Nat) (cur s : List Char) :
    splitScan sep (n + 1) cur s =
      match matchAt sep s with
      | some rest => cur.reverse :: splitScan sep n [] rest
      | none =>
        match s with
        | [] => [cur.reverse]
        | ch :: cs => splitScan sep n (ch :: cur) cs := rfl

theorem splitScan_ne_nil (sep : List Char) (n : Nat) (cur s : List Char) :
    splitScan sep n cur s ≠ [] := by
  induction n generalizing cur s with
  | zero => simp [splitScan_zero]
  | succ n ih =>
    rw [splitScan_succ]
    rcases matchAt sep s with _ | rest
    · cases s with
      | nil => simp
      | cons ch cs => exact ih _ _
    · simp

theorem joinWith_cons (sep seg : List Char) (more : List (List Char)) (h : more ≠ []) :
    joinWith sep (seg :: more) = seg ++ sep ++ joinWith sep more := by
  cases more with
  | nil => exact absurd rfl h
  | cons next more => rfl

theorem splitScan_join (sep : List Char) (hsep : sep ≠ []) (n : Nat) (cur s : List Char)
    (hn : s.length < n) : joinWith sep (splitScan sep n cur s) = cur.reverse ++ s := by
  induction n generalizing cur s with
  | zero => omega
  | succ n ih =>
    rw [splitScan_succ]
    rcases hm : matchAt sep s with _ | rest
    · cases s with
      | nil => simp [joinWith]
      | cons ch cs =>
        simp only
        rw [ih _ _ (by simpa using hn)]
        simp
    · have hs := (matchAt_eq_some sep s rest).mp hm
      have hlen : 0 < sep.length := List.length_pos.mpr hsep
      simp only
      rw [joinWith_cons _ _ _ (splitScan_ne_nil _ _ _ _), ih _ _ (by
        rw [hs, List.length_append] at hn
        omega)]
      simp [hs]

theorem no_infix_of_scanned (sep cur s : List Char) (hsep : sep ≠ [])
    (hinv : ∀ a b, cur.reverse = a ++ b → b ≠ [] → ¬ sep <+: b ++ s) :
    ¬ sep <:+: cur.reverse := by
  rintro ⟨a, d, h⟩
  refine hinv a (sep ++ d) (by rw [← h, List.append_assoc]) (by simp [hsep]) ?_
  exact ⟨d ++ s, by simp⟩

theorem splitScan_no_infix (sep : List Char) (hsep : sep ≠ []) (n : Nat) (cur s : List Char)
    (hinv : ∀ a b, cur.reverse = a ++ b → b ≠ [] → ¬ sep <+: b ++ s) :
    ∀ seg ∈ splitScan sep n cur s, ¬ sep <:+: seg := by
  induction n generalizing cur s with
  | zero =>
    intro seg hseg
    simp only [splitScan_zero, List.mem_singleton] at hseg
    subst hseg
    exact no_infix_of_scanned sep cur s hsep hinv
  | succ n ih =>
    intro seg hseg
    rw [splitScan_succ] at hseg
    rcases hm : matchAt sep s with _ | rest
    · rw [hm] at hseg
      cases s with
      | nil =>
        simp only [List.mem_singleton] at hseg
        subst hseg
        exact no_infix_of_scanned sep cur [] hsep hinv
      | cons ch cs =>
        simp only at hseg
        refine ih (ch :: cur) cs ?_ seg hseg
        intro a b hab hb
        rcases List.eq_nil_or_concat b with hb' | ⟨b0, x, rfl⟩
        · exact absurd hb' hb
        · simp only [List.concat_eq_append] at hab hb ⊢
          rw [List.reverse_cons, ← List.append_assoc] at hab
          obtain ⟨h1, h2⟩ := List.append_inj' hab rfl
          have hx : x = ch := by simpa using h2.symm
          subst hx
          rw [List.append_assoc, List.singleton_append]
          by_cases hb0 : b0 = []
          · subst hb0
            simpa using (matchAt_eq_none sep _).mp hm
          · exact hinv a b0 h1 hb0
    · rw [hm] at hseg
      simp only [List.mem_cons] at hseg
      rcases hseg with rfl | hseg
      · exact no_infix_of_scanned sep cur s hsep hinv
      · refine ih [] rest ?_ seg hseg
        intro a b hab hb
        simp only [List.reverse_nil] at hab
        have : b = [] := (List.append_eq_nil.mp hab.symm).2
        exact absurd this hb

theorem trimSpace_eq_nil_iff (s : List Char) :
    TrimSpace s = [] ↔ ∀ ch ∈ s, IsSpace ch = true := by
  unfold TrimSpace
  rw [List.reverse_eq_nil_iff, List.dropWhile_eq_nil_iff]
  constructor
  · intro h
    rw [← List.dropWhile_eq_nil_iff]
    rcases hd : s.dropWhile IsSpace with _ | ⟨x, xs⟩
    · rfl
    · have hx : IsSpace x = true := h x (by simp [hd])
      have := List.head_dropWhile_not IsSpace s (by simp [hd])
      simp [hd, hx] at this
  · intro h
    have : s.dropWhile IsSpace = [] := List.dropWhile_eq_nil_iff.mpr h
    simp [this]

theorem splitLoop_eq (unmarshal : List Char → Except String Workflow)
    (segs : List (List Char)) (acc : List Workflow) :
    splitLoop unmarshal segs acc =
      match parseAll unmarshal (segs.filter (fun seg => decide (TrimSpace seg ≠ []))) with
      | .ok wfs => ⟨some (acc ++ wfs), none⟩
      | .error e => ⟨none, some ⟨.CodeBadRequest, e⟩⟩ := by
  induction segs generalizing acc with
  | nil => simp [splitLoop, parseAll]
  | cons seg more ih =>
    by_cases hb : TrimSpace seg = []
    · simp [splitLoop, hb, ih, List.filter_cons]
    · simp only [splitLoop, hb, if_false, List.filter_cons, ne_eq, not_false_eq_true,
        decide_True, if_true, parseAll]
      rcases hu : unmarshal seg with e | wf
      · rfl
      · simp only [ih]
        rcases parseAll unmarshal (more.filter (fun seg => decide (TrimSpace seg ≠ [])))
          with e | wfs
        · rfl
        · simp

theorem splitLoopMain_eq (unmarshal : List Char → Except String Workflow)
    (segs : List (List Char)) (acc : List Workflow) :
    splitLoopMain unmarshal segs acc = splitLoop unmarshal segs acc := by
  induction segs generalizing acc with
  | nil => rfl
  | cons seg more ih =>
    simp only [splitLoopMain, splitLoop, ih]


theorem regexpSplit_join (body : List Char) :
    joinWith yamlSeparator (regexpSplit yamlSeparator body) = body := by
  have := splitScan_join yamlSeparator (by simp [yamlSeparator]) (body.length + 1) [] body
    (by omega)
  simpa [regexpSplit] using this

theorem regexpSplit_no_separator (body : List Char) :
    ∀ seg ∈ regexpSplit yamlSeparator body, ¬ yamlSeparator <:+: seg := by
  refine splitScan_no_infix yamlSeparator (by simp [yamlSeparator]) _ [] body ?_
  intro a b hab hb
  simp only [List.reverse_nil] at hab
  exact absurd (List.append_eq_nil.mp hab.symm).2 hb

theorem matchAt_inside_segment (t rest : List Char) (ht : t ≠ [])
    (hclean : ¬ yamlSeparator <:+: t) :
    matchAt yamlSeparator (t ++ yamlSeparator ++ rest) = none := by
  rcases t with _ | ⟨a, _ | ⟨b, _ | ⟨c, _ | ⟨d, t'⟩⟩⟩⟩
  · exact absurd rfl ht
  · simp [yamlSeparator, matchAt]
  · simp [yamlSeparator, matchAt]
  · simp [yamlSeparator, matchAt]
  · rw [matchAt_eq_none]
    rintro ⟨r, hr⟩
    apply hclean
    simp only [yamlSeparator, List.cons_append, List.nil_append, List.cons.injEq] at hr
    obtain ⟨rfl, rfl, rfl, rfl, -⟩ := hr
    exact ⟨[], t', by simp [yamlSeparator]⟩

theorem clean_tail (a : Char) (t : List Char) (hclean : ¬ yamlSeparator <:+: a :: t) :
    ¬ yamlSeparator <:+: t :=
  fun h => hclean (h.trans (List.suffix_cons a t).isInfix)

theorem splitScan_clean_then_separator (t : List Char) (cur rest : List Char) (n : Nat)
    (hclean : ¬ yamlSeparator <:+: t) (hn : t.length < n) :
    splitScan yamlSeparator n cur (t ++ yamlSeparator ++ rest) =
      (cur.reverse ++ t) :: splitScan yamlSeparator (n - t.length - 1) [] rest := by
  induction t generalizing cur n with
  | nil =>
    obtain ⟨k, rfl⟩ : ∃ k, n = k + 1 := ⟨n - 1, by simp at hn; omega⟩
    have hm : matchAt yamlSeparator ([] ++ yamlSeparator ++ rest) = some rest :=
      (matchAt_eq_some _ _ _).mpr (by simp)
    rw [splitScan_succ, hm]
    simp
  | cons a t ih =>
    obtain ⟨k, rfl⟩ : ∃ k, n = k + 1 := ⟨n - 1, by simp at hn; omega⟩
    have hm := matchAt_inside_segment (a :: t) rest (by simp) hclean
    rw [splitScan_succ, hm]
    simp only [List.cons_append]
    rw [ih (a :: cur) k (clean_tail a t hclean) (by simpa using hn)]
    simp only [List.reverse_cons, List.append_assoc, List.singleton_append, List.length_cons]
    congr 2
    omega

theorem splitScan_clean_last (t : List Char) (cur : List Char) (n : Nat)
    (hclean : ¬ yamlSeparator <:+: t) (hn : t.length < n) :
    splitScan yamlSeparator n cur t = [cur.reverse ++ t] := by
  induction t generalizing cur n with
  | nil =>
    obtain ⟨k, rfl⟩ : ∃ k, n = k + 1 := ⟨n - 1, by simp at hn; omega⟩
    rw [splitScan_succ]
    simp [yamlSeparator, matchAt]
  | cons a t ih =>
    obtain ⟨k, rfl⟩ : ∃ k, n = k + 1 := ⟨n - 1, by simp at hn; omega⟩
    have hm : matchAt yamlSeparator (a :: t) = none :=
      (matchAt_eq_none _ _).mpr (fun h => hclean h.isInfix)
    rw [splitScan_succ, hm]
    simp only
    rw [ih (a :: cur) k (clean_tail a t hclean) (by simpa using hn)]
    simp

theorem splitScan_of_join (segs : List (List Char)) (hne : segs ≠ [])
    (hclean : ∀ seg ∈ segs, ¬ yamlSeparator <:+: seg) (n : Nat)
    (hn : (joinWith yamlSeparator segs).length < n) :
    splitScan yamlSeparator n [] (joinWith yamlSeparator segs) = segs := by
  induction segs generalizing n with
  | nil => exact absurd rfl hne
  | cons seg more ih =>
    cases more with
    | nil =>
      simp only [joinWith] at hn ⊢
      rw [splitScan_clean_last seg [] n (hclean seg (by simp)) hn]
      simp
    | cons next more =>
      simp only [joinWith] at hn ⊢
      rw [splitScan_clean_then_separator seg [] _ n (hclean seg (by simp)) (by
        simp only [List.length_append] at hn
        omega)]
      rw [ih (by simp) (fun s hs => hclean s (by simp [hs])) _ (by
        have h4 : yamlSeparator.length = 4 := rfl
        simp only [List.length_append, h4] at hn
        omega)]
      simp

theorem regexpSplit_unique (body : List Char) (segs : List (List Char)) (hne : segs ≠ [])
    (hjoin : joinWith yamlSeparator segs = body)
    (hclean : ∀ seg ∈ segs, ¬ yamlSeparator <:+: seg) :
    regexpSplit yamlSeparator body = segs := by
  subst hjoin
  exact splitScan_of_join segs hne hclean _ (by omega)

theorem parseAll_of_forall_ok (unmarshal : List Char → Except String Workflow)
    (f : List Char → Workflow) (segs : List (List Char))
    (h : ∀ seg ∈ segs, unmarshal seg = .ok (f seg)) :
    parseAll unmarshal segs = .ok (segs.map f) := by
  induction segs with
  | nil => rfl
  | cons seg more ih =>
    simp only [parseAll, h seg (by simp), ih (fun s hs => h s (by simp [hs])), List.map_cons]

theorem parseAll_of_first_error (unmarshal : List Char → Except String Workflow)
    (pre : List (List Char)) (seg : List Char) (post : List (List Char)) (e : String)
    (hpre : ∀ s ∈ pre, ∃ wf, unmarshal s = .ok wf) (hseg : unmarshal seg = .error e) :
    parseAll unmarshal (pre ++ seg :: post) = .error e := by
  induction pre with
  | nil => simp [parseAll, hseg]
  | cons s more ih =>
    obtain ⟨wf, hwf⟩ := hpre s (by simp)
    have hrest := ih (fun t ht => hpre t (by simp [ht]))
    rw [List.cons_append, parseAll, hwf]
    simp only [hrest]

theorem parseAll_of_some_error (unmarshal : List Char → Except String Workflow)
    (segs : List (List Char)) (h : ∃ seg ∈ segs, ∃ e, unmarshal seg = .error e) :
    ∃ e, parseAll unmarshal segs = .error e := by
  induction segs with
  | nil => simp at h
  | cons s more ih =>
    rcases hs : unmarshal s with e | wf
    · exact ⟨e, by simp [parseAll, hs]⟩
    · have hmore : ∃ seg ∈ more, ∃ e, unmarshal seg = .error e := by
        obtain ⟨seg, hseg, e, he⟩ := h
        rcases List.mem_cons.mp hseg with rfl | hseg
        · rw [hs] at he
          cases he
        · exact ⟨seg, hseg, e, he⟩
      obtain ⟨e, he⟩ := ih hmore
      exact ⟨e, by simp [parseAll, hs, he]⟩

theorem SplitYAMLFile_eq_spec (unmarshal : List Char → Except String Workflow)
    (body : List Char) : SplitYAMLFile unmarshal body = specSplitYAML unmarshal body := by
  simp only [SplitYAMLFile, specSplitYAML, nonBlankSegments, splitLoop_eq, List.nil_append]

/-- C8.  Both copies of the split return the same result on every body, and that
result is the one described: with the body cut at every occurrence of
the separator (the segments are the one way to write the body as pieces joined
by the separator with no separator inside a piece) and the segments that trim to
nothing dropped,
it is one workflow per remaining segment, in order, when all of them unmarshal,
and a bad-request error with a nil list as soon as one fails, whatever came
before it. -/
theorem split_yaml_file_refines_spec (unmarshal : List Char → Except String Workflow)
    (body : List Char) :
    splitYAMLFile unmarshal body = SplitYAMLFile unmarshal body ∧
    SplitYAMLFile unmarshal body = specSplitYAML unmarshal body ∧
    joinWith yamlSeparator (regexpSplit yamlSeparator body) = body ∧
    (∀ seg ∈ regexpSplit yamlSeparator body, ¬ yamlSeparator <:+: seg) ∧
    (∀ segs, segs ≠ [] → joinWith yamlSeparator segs = body →
      (∀ seg ∈ segs, ¬ yamlSeparator <:+: seg) → regexpSplit yamlSeparator body = segs) ∧
    (∀ f : List Char → Workflow,
      (∀ seg ∈ nonBlankSegments body, unmarshal seg = .ok (f seg)) →
      SplitYAMLFile unmarshal body = ⟨some ((nonBlankSegments body).map f), none⟩) ∧
    (∀ pre seg post e, nonBlankSegments body = pre ++ seg :: post →
      (∀ s ∈ pre, ∃ wf, unmarshal s = .ok wf) → unmarshal seg = .error e →
      SplitYAMLFile unmarshal body = ⟨none, some ⟨.CodeBadRequest, e⟩⟩) ∧
    ((∃ seg ∈ nonBlankSegments body, ∃ e, unmarshal seg = .error e) →
      ∃ e, SplitYAMLFile unmarshal body = ⟨none, some ⟨.CodeBadRequest, e⟩⟩) := by
  refine ⟨?_, SplitYAMLFile_eq_spec unmarshal body, regexpSplit_join body,
    regexpSplit_no_separator body, regexpSplit_unique body, ?_, ?_, ?_⟩
  · simp only [splitYAMLFile, SplitYAMLFile, splitLoopMain_eq]
  · intro f hf
    rw [SplitYAMLFile_eq_spec, specSplitYAML, parseAll_of_forall_ok unmarshal f _ hf]
  · intro pre seg post e hsegs hpre hseg
    rw [SplitYAMLFile_eq_spec, specSplitYAML, hsegs,
      parseAll_of_first_error unmarshal pre seg post e hpre hseg]
  · intro h
    obtain ⟨e, he⟩ := parseAll_of_some_error unmarshal _ h
    exact ⟨e, by rw [SplitYAMLFile_eq_spec, specSplitYAML, he]⟩

/-! ## Submitting a workflow -/

theorem SplitN2_eq (s : List Char) :
    SplitN2 s = if '=' ∈ s then
      [s.takeWhile (fun ch => ch ≠ '='), (s.dropWhile (fun ch => ch ≠ '=')).drop 1] else [s] := by
  induction s with
  | nil => simp [SplitN2]
  | cons ch cs ih =>
    by_cases h : ch = '='
    · subst h
      simp [SplitN2, List.takeWhile, List.dropWhile]
    · have h' : ¬ '=' = ch := fun e => h e.symm
      simp only [SplitN2, h, if_false, ih, List.mem_cons, h', false_or]
      by_cases hm : '=' ∈ cs
      · simp [hm, List.takeWhile, List.dropWhile, h]
      · simp [hm]

theorem overrideLoop_eq (overrides : List (List Char)) (newParams : List Parameter)
    (passed : List (List Char)) :
    overrideLoop overrides (newParams, passed) =
      (newParams ++ overrides.filterMap parseOverride,
        ((overrides.filterMap parseOverride).map Parameter.Name).reverse ++ passed) := by
  induction overrides generalizing newParams passed with
  | nil => simp [overrideLoop]
  | cons s more ih =>
    by_cases hm : '=' ∈ s
    · simp [overrideLoop, SplitN2_eq, hm, ih, parseOverride, List.filterMap_cons]
    · simp [overrideLoop, SplitN2_eq, hm, ih, parseOverride, List.filterMap_cons]

theorem keepLoop_eq (passed : List (List Char)) (existing newParams : List Parameter) :
    keepLoop passed existing newParams =
      newParams ++ existing.filter (fun param => decide (param.Name ∉ passed)) := by
  induction existing generalizing newParams with
  | nil => simp [keepLoop]
  | cons param more ih =>
    by_cases hm : param.Name ∈ passed
    · simp [keepLoop, hm, ih, List.filter_cons]
    · simp [keepLoop, hm, ih, List.filter_cons]

theorem mergeParameters_eq (overrides : List (List Char)) (existing : List Parameter) :
    mergeParameters overrides existing = specMerge overrides existing := by
  simp only [mergeParameters, specMerge, overrideLoop_eq, keepLoop_eq, List.nil_append,
    List.append_nil]
  congr 1
  apply List.filter_congr
  intro param _
  simp


theorem checkErr_submitted (err : Option String) (next : Submission) (wf : Workflow)
    (h : (checkErr err next).submitted = some wf) : err = none ∧ next.submitted = some wf := by
  cases err with
  | none => exact ⟨rfl, h⟩
  | some msg => simp [checkErr] at h

theorem checkErr_returned (err : Option String) (next : Submission) (v : Option String)
    (h : (checkErr err next).outcome = .returned v) :
    err = none ∧ next.outcome = .returned v := by
  cases err with
  | none => exact ⟨rfl, h⟩
  | some msg => simp [checkErr] at h

theorem checkErr_panics (err : Option String) (next : Submission)
    (h : ∃ msg, next.outcome = .panicked msg) :
    ∃ msg, (checkErr err next).outcome = .panicked msg := by
  cases err with
  | none => exact h
  | some msg => exact ⟨msg, rfl⟩

theorem submitTail_submitted (env : SubmitEnv) (wfClient : Nat) (r : SplitResult)
    (wf : Workflow) (h : (submitTail env wfClient r).submitted = some wf) :
    ∃ first more, r.manifests = some (first :: more) ∧ r.err = none ∧
      wf = { first with Parameters := specMerge wfParameters first.Parameters } := by
  unfold submitTail at h
  obtain ⟨he, h⟩ := checkErr_submitted _ _ wf h
  have he' : r.err = none := by simpa using he
  rcases hm : r.manifests with _ | ms
  · simp [hm] at h
  · rcases ms with _ | ⟨first, more⟩
    · simp [hm] at h
    · refine ⟨first, more, rfl, he', ?_⟩
      simp only [hm, Option.getD_some, Option.some.injEq] at h
      rw [← h, mergeParameters_eq]

theorem submitTail_returned (env : SubmitEnv) (wfClient : Nat) (r : SplitResult)
    (v : Option String) (h : (submitTail env wfClient r).outcome = .returned v) :
    v = none := by
  unfold submitTail at h
  obtain ⟨-, h⟩ := checkErr_returned _ _ v h
  rcases hm : r.manifests.getD [] with _ | ⟨first, more⟩
  · simp [hm] at h
  · rw [hm] at h
    simp only at h
    obtain ⟨-, h⟩ := checkErr_returned _ _ v h
    simpa using h.symm

/-- C9.  The two loops of the merge compute, for every list of override strings
and every list of existing parameters, the accepted overrides in their order
(name before the first `=`, value after it, strings without `=` left out)
followed by the existing parameters whose name no accepted override bears, in
their order and unchanged.  The workflow that `SubmitWorkflow` and the cron job
hand to `Create` is the first workflow of the split with its parameters replaced
by this merge of the built-in overrides. -/
theorem merge_parameters_refines_spec (overrides : List (List Char))
    (existing : List Parameter) :
    mergeParameters overrides existing = specMerge overrides existing ∧
    (∀ param ∈ existing,
      param.Name ∉ (overrides.filterMap parseOverride).map Parameter.Name →
        param ∈ mergeParameters overrides existing) ∧
    (∀ env body wf, (SubmitWorkflow env body).submitted = some wf →
      ∃ first more, (SplitYAMLFile env.unmarshal body).manifests = some (first :: more) ∧
        wf = { first with Parameters := specMerge wfParameters first.Parameters }) ∧
    (∀ env wf, (cronFunc env).submitted = some wf →
      ∃ first more,
        (splitYAMLFile env.unmarshal env.readFile.1).manifests = some (first :: more) ∧
        wf = { first with Parameters := specMerge wfParameters first.Parameters }) := by
  refine ⟨mergeParameters_eq overrides existing, ?_, ?_, ?_⟩
  · intro param hparam hname
    rw [mergeParameters_eq, specMerge, List.mem_append, List.mem_filter]
    exact Or.inr ⟨hparam, by simpa using hname⟩
  · intro env body wf h
    unfold SubmitWorkflow at h
    obtain ⟨-, h⟩ := checkErr_submitted _ _ wf h
    obtain ⟨-, h⟩ := checkErr_submitted _ _ wf h
    rcases hn : env.newForConfigOrDie
      (env.buildConfigFromFlags (kubeconfigPath env env.userCurrent.1)).1 with e | wfClient
    · simp [hn] at h
    · rw [hn] at h
      obtain ⟨-, h⟩ := checkErr_submitted _ _ wf h
      obtain ⟨first, more, h1, -, h2⟩ := submitTail_submitted env wfClient _ wf h
      exact ⟨first, more, h1, h2⟩
  · intro env wf h
    unfold cronFunc at h
    obtain ⟨-, h⟩ := checkErr_submitted _ _ wf h
    obtain ⟨-, h⟩ := checkErr_submitted _ _ wf h
    rcases hn : env.newForConfigOrDie
      (env.buildConfigFromFlags (kubeconfigPath env env.userCurrent.1)).1 with e | wfClient
    · simp [hn] at h
    · rw [hn] at h
      obtain ⟨-, h⟩ := checkErr_submitted _ _ wf h
      obtain ⟨first, more, h1, -, h2⟩ := submitTail_submitted env wfClient _ wf h
      exact ⟨first, more, h1, h2⟩

/-- C10.  On a body whose segments are all white space, `SplitYAMLFile` returns
an empty list and no error, and `SubmitWorkflow` ends in a panic whatever the
environment; when the user, the configuration and the client are obtained, that
panic is the index out of range at `workFlows[0]`.  On any body, a
`SubmitWorkflow` that returns returns nil. -/
theorem submit_panics_on_blank_body (env : SubmitEnv) (body : List Char)
    (hblank : ∀ seg ∈ regexpSplit yamlSeparator body, ∀ ch ∈ seg, IsSpace ch = true) :
    SplitYAMLFile env.unmarshal body = ⟨some [], none⟩ ∧
    (∃ msg, (SubmitWorkflow env body).outcome = .panicked msg) ∧
    (∀ wfClient, env.userCurrent.2 = none →
      (env.buildConfigFromFlags (kubeconfigPath env env.userCurrent.1)).2 = none →
      env.newForConfigOrDie (env.buildConfigFromFlags (kubeconfigPath env env.userCurrent.1)).1 =
        .ok wfClient →
      (SubmitWorkflow env body).outcome = .panicked "index out of range [0] with length 0") ∧
    (∀ other v, (SubmitWorkflow env other).outcome = .returned v → v = none) := by
  have hnone : nonBlankSegments body = [] := by
    simp only [nonBlankSegments, List.filter_eq_nil_iff, decide_eq_true_eq, ne_eq, not_not]
    intro seg hseg
    exact (trimSpace_eq_nil_iff seg).mpr (hblank seg hseg)
  have hsplit : SplitYAMLFile env.unmarshal body = ⟨some [], none⟩ := by
    rw [SplitYAMLFile_eq_spec, specSplitYAML, hnone]
    rfl
  have htail : ∀ wfClient, (submitTail env wfClient (SplitYAMLFile env.unmarshal body)).outcome
      = .panicked "index out of range [0] with length 0" := by
    intro wfClient
    rw [hsplit]
    rfl
  refine ⟨hsplit, ?_, ?_, ?_⟩
  · unfold SubmitWorkflow
    refine checkErr_panics _ _ (checkErr_panics _ _ ?_)
    rcases env.newForConfigOrDie
      (env.buildConfigFromFlags (kubeconfigPath env env.userCurrent.1)).1 with e | wfClient
    · exact ⟨e, rfl⟩
    · exact checkErr_panics _ _ ⟨_, htail wfClient⟩
  · intro wfClient hu hb hn
    simp only [SubmitWorkflow, hu, hb, hn, checkErr]
    exact htail wfClient
  · intro other v h
    unfold SubmitWorkflow at h
    obtain ⟨-, h⟩ := checkErr_returned _ _ v h
    obtain ⟨-, h⟩ := checkErr_returned _ _ v h
    rcases hn : env.newForConfigOrDie
      (env.buildConfigFromFlags (kubeconfigPath env env.userCurrent.1)).1 with e | wfClient
    · simp [hn] at h
    · rw [hn] at h
      obtain ⟨-, h⟩ := checkErr_returned _ _ v h
      exact submitTail_returned env wfClient _ v h

/-! ## Facts about the model queue -/

theorem workQueue_eq_of_fields {a b : WorkQueue} (h1 : a.queue = b.queue)
    (h2 : a.dirty = b.dirty) (h3 : a.processing = b.processing)
    (h4 : a.shuttingDown = b.shuttingDown) (h5 : a.failures = b.failures) : a = b := by
  cases a
  cases b
  simp_all

theorem exec_eq_of_fields {α : Type} {a b : Exec σ α} (h1 : a.outcome = b.outcome)
    (h2 : a.world = b.world) (h3 : a.trace = b.trace) : a = b := by
  cases a
  cases b
  simp_all

theorem numRequeues_forget_model (k : QKey) (q : WorkQueue) :
    WorkQueue.ops.NumRequeues k (WorkQueue.ops.Forget k q) = 0 := by
  simp [WorkQueue.ops, WorkQueue.NumRequeues, WorkQueue.Forget]

theorem numRequeues_done_model (k : QKey) (q : WorkQueue) :
    WorkQueue.ops.NumRequeues k (WorkQueue.ops.Done k q) = WorkQueue.ops.NumRequeues k q := by
  simp only [WorkQueue.ops, WorkQueue.NumRequeues, WorkQueue.Done]
  split <;> rfl

/-- One pass over a key whose lookup fails leaves the model queue exactly as it
found it: the key is pending again and its retry counter is back to 0. -/
theorem retry_pass_restores_queue :
    processNextItem (modelController failingLookup quietHandler)
        (WorkQueue.pending [.str "ns/a"]) =
      ⟨.returned true, WorkQueue.pending [.str "ns/a"], retryPass⟩ := by
  refine exec_eq_of_fields rfl ?_ rfl
  refine workQueue_eq_of_fields rfl rfl rfl rfl ?_
  funext k
  show (if k = QKey.str "ns/a" then 0 else if k = QKey.str "ns/a" then 0 + 1 else 0) = 0
  split <;> simp [*]

/-! ## Statements at concrete inputs -/

/-- C2, at an input: the key `ns/a` is looked up with `exists` true and the
handler's `ObjectCreated` panics; `Done` is still the last call and the only
`Done`. -/
theorem done_exactly_once_and_last_witness :
    WorkQueue.ops.Get (WorkQueue.pending [.str "ns/a"]) =
        some ((.str "ns/a", false),
          { WorkQueue.pending [] with processing := [.str "ns/a"] }) ∧
      (processNextItem (modelController ⟨some 7, true, none⟩ busyHandler)
          (WorkQueue.pending [.str "ns/a"])).outcome = .panicked "handler failed" ∧
      ((∃ pre, (processNextItem (modelController ⟨some 7, true, none⟩ busyHandler)
            (WorkQueue.pending [.str "ns/a"])).trace = pre ++ [Event.done (.str "ns/a")] ∧
          ∀ k, Event.done k ∉ pre) ∧
        (processNextItem (modelController ⟨some 7, true, none⟩ busyHandler)
          (WorkQueue.pending [.str "ns/a"])).trace.count (Event.done (.str "ns/a")) = 1 ∧
        ((processNextItem (modelController ⟨some 7, true, none⟩ busyHandler)
            (WorkQueue.pending [.str "ns/a"])).trace.filter Event.isQueueOp).getLast? =
          some (Event.done (.str "ns/a")) ∧
        (processNextItem (modelController ⟨some 7, true, none⟩ busyHandler)
            (WorkQueue.pending [.str "ns/a"])).world =
          WorkQueue.ops.Done (.str "ns/a")
            (processBody (modelController ⟨some 7, true, none⟩ busyHandler) (.str "ns/a")
              { WorkQueue.pending [] with processing := [.str "ns/a"] }).world) :=
  ⟨rfl, rfl, done_exactly_once_and_last (modelController ⟨some 7, true, none⟩ busyHandler)
    (WorkQueue.pending [.str "ns/a"]) _ (.str "ns/a") false rfl⟩

/-- C1, as stated, fails: an indexer that answers the key `ns/a` with the object
7, `exists` false and no error makes `processNextItem` call `ObjectDeleted` with
the object 7, so an object is passed to the handler. -/
theorem existence_branching_counterexample :
    WorkQueue.ops.Get (WorkQueue.pending [.str "ns/a"]) =
        some ((.str "ns/a", false),
          { WorkQueue.pending [] with processing := [.str "ns/a"] }) ∧
      ((constInformer ⟨some 7, false, none⟩).GetByKey "ns/a"
          { WorkQueue.pending [] with processing := [.str "ns/a"] }).err = none ∧
      ((constInformer ⟨some 7, false, none⟩).GetByKey "ns/a"
          { WorkQueue.pending [] with processing := [.str "ns/a"] }).exists_ = false ∧
      handlerCalls (processNextItem (modelController ⟨some 7, false, none⟩ quietHandler)
          (WorkQueue.pending [.str "ns/a"])).trace = [Event.objectDeleted (some 7)] ∧
      handlerCalls (processNextItem (modelController ⟨some 7, false, none⟩ quietHandler)
          (WorkQueue.pending [.str "ns/a"])).trace ≠ [Event.objectDeleted none] :=
  ⟨rfl, rfl, rfl, rfl, by decide⟩

/-- C1 (amended), at two inputs: the key `ns/a` present with object 7, and the
key absent with a nil item. -/
theorem handler_called_once_with_lookup_item_witness :
    handlerCalls (processNextItem (modelController ⟨some 7, true, none⟩ quietHandler)
        (WorkQueue.pending [.str "ns/a"])).trace = [Event.objectCreated (some 7)] ∧
      handlerCalls (processNextItem (modelController ⟨none, false, none⟩ quietHandler)
        (WorkQueue.pending [.str "ns/a"])).trace = [Event.objectDeleted none] :=
  ⟨handler_called_once_with_lookup_item (modelController ⟨some 7, true, none⟩ quietHandler)
      (WorkQueue.pending [.str "ns/a"]) _ "ns/a" rfl rfl,
    handler_called_once_with_lookup_item (modelController ⟨none, false, none⟩ quietHandler)
      (WorkQueue.pending [.str "ns/a"]) _ "ns/a" rfl rfl⟩

/-- C6, as stated, fails: `Get` delivers the key `ns/a` without the shutdown
flag, the lookup finds object 7 and the handler's `ObjectCreated` panics; the
call does not return true, it panics. -/
theorem returns_true_counterexample :
    WorkQueue.ops.Get (WorkQueue.pending [.str "ns/a"]) =
        some ((.str "ns/a", false),
          { WorkQueue.pending [] with processing := [.str "ns/a"] }) ∧
      (processNextItem (modelController ⟨some 7, true, none⟩ busyHandler)
        (WorkQueue.pending [.str "ns/a"])).outcome = .panicked "handler failed" ∧
      (processNextItem (modelController ⟨some 7, true, none⟩ busyHandler)
        (WorkQueue.pending [.str "ns/a"])).outcome ≠ .returned true ∧
      (runWorker (modelController ⟨some 7, true, none⟩ busyHandler) 5
        (WorkQueue.pending [.str "ns/a"])).outcome = .panicked "handler failed" :=
  ⟨rfl, rfl, by decide, rfl⟩

/-- C6 (amended), at three inputs.  Two keys are pending, both present in the
cache, and the queue is shut down: the worker loop handles both and returns at
the third `Get`, the first to report shutdown.  A lookup fails and the handler's
`ObjectDeleted` returns: the call returns true.  A lookup finds object 7 and the
handler's `ObjectCreated` panics: the call ends in that panic, the handler call
and `Done` being its last two calls. -/
theorem returns_false_iff_shutdown_witness :
    (∃ key, runWorker (modelController ⟨some 7, true, none⟩ quietHandler) 3
        (WorkQueue.ShutDown (WorkQueue.pending [.str "ns/a", .str "ns/b"])) =
          ⟨.returned (),
            worldAfter (modelController ⟨some 7, true, none⟩ quietHandler) 3
              (WorkQueue.ShutDown (WorkQueue.pending [.str "ns/a", .str "ns/b"])),
            traceOf (modelController ⟨some 7, true, none⟩ quietHandler) 2
              (WorkQueue.ShutDown (WorkQueue.pending [.str "ns/a", .str "ns/b"])) ++
              [.get key true]⟩ ∧
      ∀ k, Event.get k true ∉
        traceOf (modelController ⟨some 7, true, none⟩ quietHandler) 2
          (WorkQueue.ShutDown (WorkQueue.pending [.str "ns/a", .str "ns/b"]))) ∧
    (processNextItem (modelController failingLookup busyHandler)
        (WorkQueue.pending [.str "ns/a"])).outcome = .returned true ∧
    ((processNextItem (modelController ⟨some 7, true, none⟩ busyHandler)
        (WorkQueue.pending [.str "ns/a"])).outcome = .panicked "handler failed" ∧
      (processNextItem (modelController ⟨some 7, true, none⟩ busyHandler)
          (WorkQueue.pending [.str "ns/a"])).world =
        WorkQueue.ops.Done (.str "ns/a")
          (handlerCallOf (modelController ⟨some 7, true, none⟩ busyHandler) "ns/a"
            { WorkQueue.pending [] with processing := [.str "ns/a"] }).2 ∧
      ∃ pre, (processNextItem (modelController ⟨some 7, true, none⟩ busyHandler)
          (WorkQueue.pending [.str "ns/a"])).trace =
        pre ++ [Event.objectCreated (some 7), .done (.str "ns/a")]) :=
  ⟨(returns_false_iff_shutdown (modelController ⟨some 7, true, none⟩ quietHandler)
      (WorkQueue.ShutDown (WorkQueue.pending [.str "ns/a", .str "ns/b"]))).2.2.2.2.2.2.1 2
      (by
        intro i hi
        obtain rfl | rfl : i = 0 ∨ i = 1 := by omega
        · rfl
        · rfl)
      rfl 3 (by omega),
    (returns_false_iff_shutdown (modelController failingLookup busyHandler)
      (WorkQueue.pending [.str "ns/a"])).2.2.2.1 "ns/a" _ rfl rfl,
    (returns_false_iff_shutdown (modelController ⟨some 7, true, none⟩ busyHandler)
      (WorkQueue.pending [.str "ns/a"])).2.2.2.2.1 "ns/a" _ "handler failed" rfl rfl⟩

/-- C5, at an input: the key `ns/a` is absent from the cache and the handler's
`ObjectDeleted` adds it to the queue again, which raises its retry counter; the
`Forget` that follows the handler resets it. -/
theorem forget_after_handler_before_done_witness :
    (processNextItem (modelController ⟨none, false, none⟩ busyHandler)
        (WorkQueue.pending [.str "ns/a"])).outcome = .returned true ∧
      (processNextItem (modelController ⟨none, false, none⟩ busyHandler)
          (WorkQueue.pending [.str "ns/a"])).trace =
        [.get (.str "ns/a") false, .getByKey "ns/a", Event.objectDeleted none,
          .forget (.str "ns/a"), .done (.str "ns/a")] ∧
      Event.addRateLimited (.str "ns/a") ∉
        (processNextItem (modelController ⟨none, false, none⟩ busyHandler)
          (WorkQueue.pending [.str "ns/a"])).trace ∧
      WorkQueue.ops.NumRequeues (.str "ns/a")
        (processNextItem (modelController ⟨none, false, none⟩ busyHandler)
          (WorkQueue.pending [.str "ns/a"])).world = 0 :=
  forget_after_handler_before_done (modelController ⟨none, false, none⟩ busyHandler)
    (WorkQueue.pending [.str "ns/a"]) _ "ns/a" rfl rfl rfl
    numRequeues_forget_model numRequeues_done_model

/-- C4, evaluated on the code: a failed lookup of the key `ns/a` does not end
the call.  Under the budget the call goes on to `ObjectDeleted` and `Forget`
after `AddRateLimited`; over the budget (counter at 5) it goes on to
`ObjectDeleted` and a second `Forget` after `Forget` and the error report. -/
theorem lookup_error_falls_through :
    (processNextItem (modelController failingLookup quietHandler)
        (WorkQueue.pending [.str "ns/a"])).trace =
      [.get (.str "ns/a") false, .getByKey "ns/a", .numRequeues (.str "ns/a"),
        .addRateLimited (.str "ns/a"), .objectDeleted none, .forget (.str "ns/a"),
        .done (.str "ns/a")] ∧
    (processNextItem (modelController failingLookup quietHandler)
        { WorkQueue.pending [.str "ns/a"] with failures := fun _ => 5 }).trace =
      [.get (.str "ns/a") false, .getByKey "ns/a", .numRequeues (.str "ns/a"),
        .forget (.str "ns/a"), .handleError "index error", .objectDeleted none,
        .forget (.str "ns/a"), .done (.str "ns/a")] :=
  ⟨rfl, rfl⟩

/-- C3, evaluated on the code: with the key `ns/a` pending and a lookup that
always fails, every pass of the worker loop adds the key again, resets its retry
counter and reports nothing, so after any number `n` of passes the loop is still
running, the key has been re-enqueued `n` times (a 6th time included) and the
error has never reached the fault reporter. -/
theorem lookup_failure_requeued_without_bound (n : Nat) :
    (runWorker (modelController failingLookup quietHandler) n
        (WorkQueue.pending [.str "ns/a"])).outcome = .outOfFuel ∧
      (runWorker (modelController failingLookup quietHandler) n
        (WorkQueue.pending [.str "ns/a"])).trace.count (.addRateLimited (.str "ns/a")) = n ∧
      (∀ msg, Event.handleError msg ∉
        (runWorker (modelController failingLookup quietHandler) n
          (WorkQueue.pending [.str "ns/a"])).trace) ∧
      WorkQueue.ops.NumRequeues (.str "ns/a")
        (runWorker (modelController failingLookup quietHandler) n
          (WorkQueue.pending [.str "ns/a"])).world = 0 := by
  induction n with
  | zero => exact ⟨rfl, rfl, by simp [runWorker], rfl⟩
  | succ n ih =>
    obtain ⟨h1, h2, h3, h4⟩ := ih
    have hstep := retry_pass_restores_queue
    simp only [runWorker, hstep]
    refine ⟨h1, ?_, ?_, h4⟩
    · rw [List.count_append, h2]
      have : retryPass.count (.addRateLimited (.str "ns/a")) = 1 := by decide
      omega
    · intro msg hmem
      rw [List.mem_append] at hmem
      rcases hmem with hmem | hmem
      · simp [retryPass] at hmem
      · exact h3 msg hmem

/-- C7, at two inputs.  With a cache sync that answers false the whole trace of
`Run` is the two starts, the wait, the error report and `ShutDown`.  With a cache
sync that answers true and the key `ns/a` pending in a queue being shut down,
the worker runs after the wait and `ShutDown` is called once, at the end. -/
theorem run_sync_gate_and_shutdown_witness :
    (Run (modelController ⟨some 7, true, none⟩ quietHandler) (modelRuntime false) 3
        (WorkQueue.pending [.str "ns/a"])).trace =
      [.cronStart, .informerRun, .waitForCacheSync false,
        .handleError "Error syncing cache", .shutDown] ∧
    (Run (modelController ⟨some 7, true, none⟩ quietHandler) (modelRuntime true) 3
        (WorkQueue.ShutDown (WorkQueue.pending [.str "ns/a"]))).trace =
      [.cronStart, .informerRun, .waitForCacheSync true, .runWorker,
        .get (.str "ns/a") false, .getByKey "ns/a", .objectCreated (some 7),
        .forget (.str "ns/a"), .done (.str "ns/a"), .get (.other 0) true, .shutDown] ∧
    (Run (modelController ⟨some 7, true, none⟩ quietHandler) (modelRuntime true) 3
        (WorkQueue.ShutDown (WorkQueue.pending [.str "ns/a"]))).trace.count .shutDown = 1 :=
  ⟨rfl, rfl,
    ((run_sync_gate_and_shutdown (modelController ⟨some 7, true, none⟩ quietHandler)
      (modelRuntime true) 3 (WorkQueue.ShutDown (WorkQueue.pending [.str "ns/a"]))).2.2
        (by decide) (by decide)).1⟩

/-- C8, at an input: three segments, the second blank, the third rejected by the
parser; the first segment parsed, and yet the result is the error and a nil
list, from both copies. -/
theorem split_yaml_file_refines_spec_witness :
    SplitYAMLFile (fun seg => if seg = "a".toList then .ok ⟨[], 1⟩ else .error "bad yaml")
        "a\n--- \n---b".toList = ⟨none, some ⟨.CodeBadRequest, "bad yaml"⟩⟩ ∧
      splitYAMLFile (fun seg => if seg = "a".toList then .ok ⟨[], 1⟩ else .error "bad yaml")
        "a\n--- \n---b".toList = ⟨none, some ⟨.CodeBadRequest, "bad yaml"⟩⟩ :=
  ⟨(split_yaml_file_refines_spec _ "a\n--- \n---b".toList).2.2.2.2.2.2.1
      ["a".toList] "b".toList [] "bad yaml" (by decide) (by simp) (by simp),
    ((split_yaml_file_refines_spec _ "a\n--- \n---b".toList).1).trans
      ((split_yaml_file_refines_spec _ "a\n--- \n---b".toList).2.2.2.2.2.2.1
        ["a".toList] "b".toList [] "bad yaml" (by decide) (by simp) (by simp))⟩

/-- C9, at an input: the built-in overrides merged into a workflow that already
has `hello` and `keep`; `hello` is replaced and `keep` survives unchanged, last
in the list. -/
theorem merge_parameters_refines_spec_witness :
    mergeParameters wfParameters
        [⟨"hello".toList, some "old".toList, 5⟩, ⟨"keep".toList, none, 6⟩] =
      [⟨"hello".toList, some "one".toList, 0⟩, ⟨"bye".toList, some "two".toList, 0⟩,
        ⟨"what".toList, some "is".toList, 0⟩, ⟨"keep".toList, none, 6⟩] :=
  ((merge_parameters_refines_spec wfParameters
    [⟨"hello".toList, some "old".toList, 5⟩, ⟨"keep".toList, none, 6⟩]).1).trans (by decide)

/-- C10, at an input: a body of two blank segments, in an environment where
every outside call succeeds. -/
theorem submit_panics_on_blank_body_witness :
    SplitYAMLFile okEnv.unmarshal " \n---\n".toList = ⟨some [], none⟩ ∧
      (SubmitWorkflow okEnv " \n---\n".toList).outcome =
        .panicked "index out of range [0] with length 0" :=
  ⟨(submit_panics_on_blank_body okEnv " \n---\n".toList (by decide)).1,
    (submit_panics_on_blank_body okEnv " \n---\n".toList (by decide)).2.2.1
      2 rfl rfl rfl⟩

end ArgoScheduler
